import Mathlib

/-!
Shallow embedding of the AutoStyle QGIS plugin core
(src/core/layer_processor.py, src/core/style_manager.py,
src/core/update_checker.py).

Python's standard library and the QGIS host are modelled by an explicit
environment `Env`: regular-expression compilation success, the anchored
match attempt underlying `re.search`, `os.path.exists` for style files,
and the host's style-loading / repaint / legend-refresh primitives (each
of which may raise, modelled as `Except`).  The config-store filesystem is
an association list from paths to parsed JSON values; `json.dump` followed
by `json.load` is the identity on such values, so files hold `JVal`
directly.  File writes and deletes are modelled as always succeeding
(the `IOError` branches of the source are not exercised by any claim).
-/

namespace AutoStyle

/-- Python whitespace class `\s` and the character set removed by `str.strip()`:
space, tab, newline, carriage return, vertical tab, form feed. -/
def isPySpace (c : Char) : Bool :=
  c = ' ' ∨ c = '\t' ∨ c = '\n' ∨ c = '\r' ∨ c = '\x0b' ∨ c = '\x0c'

/-- `str.strip()` on a character list: drop Python whitespace at both ends. -/
def pyStripList (cs : List Char) : List Char :=
  ((cs.dropWhile isPySpace).reverse.dropWhile isPySpace).reverse

/-- `str.strip()` on a string. -/
def pyStrip (s : String) : String :=
  ⟨pyStripList s.data⟩

/-- Python `str.split('\n')`: split at every newline, keeping empty pieces,
so the result is always non-empty. -/
def splitOnNl : List Char → List (List Char)
  | [] => [[]]
  | c :: cs =>
    if c = '\n' then [] :: splitOnNl cs
    else
      match splitOnNl cs with
      | [] => [[c]]
      | l :: ls => (c :: l) :: ls

/-- The character class of the regex metacharacter `.` (any character except
newline, Python default flags). -/
def pyDotChar (c : Char) : Bool := c ≠ '\n'

/-- After the closing quote of group 1 of `^"(.+)"\s*:\s*"(.+)"$`
(style_manager._parse_content's line pattern), try to match the remainder
`\s*:\s*"(.+)"$` against the rest of the line.  Returns the text of
group 2 when it matches. -/
def matchTail (cs : List Char) : Option (List Char) :=
  match cs.dropWhile isPySpace with
  | ':' :: cs2 =>
    match cs2.dropWhile isPySpace with
    | '"' :: rest =>
      match rest.reverse with
      | '"' :: g2rev =>
        if g2rev ≠ [] ∧ g2rev.all pyDotChar then some g2rev.reverse else none
      | _ => none
    | _ => none
  | _ => none

/-- Backtracking search for the division of the line body (everything after
the opening quote) into group 1, its closing quote, and the matched
remainder.  Python's greedy `(.+)` prefers the longest group 1, i.e. the
latest viable closing quote, which is the deeper recursive alternative
here.  Group 1 may come out empty; the caller rejects that case. -/
def pickG1 : List Char → Option (List Char × List Char)
  | [] => none
  | c :: cs =>
    match (if pyDotChar c then (pickG1 cs).map (fun p => (c :: p.1, p.2)) else none) with
    | some r => some r
    | none =>
      if c = '"' then (matchTail cs).map (fun g2 => (([] : List Char), g2)) else none

/-- `re.match(r'^"(.+)"\s*:\s*"(.+)"$', line)`: the full line must start with
a quote, and both groups must be non-empty.  Returns (group1, group2) =
(pattern, style_file). -/
def matchRuleLine (line : List Char) : Option (String × String) :=
  match line with
  | '"' :: body =>
    match pickG1 body with
    | some (g1, g2) => if g1 = [] then none else some (⟨g1⟩, ⟨g2⟩)
    | none => none
  | _ => none

/-! ### JSON values and the config-store filesystem -/

/-- A parsed JSON value (numbers restricted to integers; no claim involves
floats). -/
inductive JVal where
  | jnull
  | jbool (b : Bool)
  | jint (n : Int)
  | jstr (s : String)
  | jarr (items : List JVal)
  | jobj (fields : List (String × JVal))

/-- The filesystem holding config files: a map from path to the JSON value
the file parses to. -/
abbrev FS := List (String × JVal)

/-- `os.path.exists` on the config filesystem. -/
def fsExists (fs : FS) (p : String) : Bool :=
  (List.any fs fun e => e.1 = p)

/-- Read and JSON-parse the file at a path (`open` + `json.load`). -/
def fsRead (fs : FS) (p : String) : Option JVal :=
  (List.find? (fun e => e.1 = p) fs).map (fun e => e.2)

/-- `open(p, 'w')` + `json.dump v`: overwrite an existing file or create a
new one. -/
def fsWrite (fs : FS) (p : String) (v : JVal) : FS :=
  if fsExists fs p then List.map (fun e => if e.1 = p then (p, v) else e) fs
  else fs ++ [(p, v)]

/-- `os.remove p` (no-op when the file does not exist; the source guards the
call with `os.path.exists`). -/
def fsRemove (fs : FS) (p : String) : FS :=
  List.filter (fun e => ¬ e.1 = p) fs

/-- Python `dict` lookup on a JSON object's fields. -/
def jlookup (fields : List (String × JVal)) (k : String) : Option JVal :=
  (List.find? (fun e => e.1 = k) fields).map (fun e => e.2)

/-- Python `d[k] = v` on a dict: replace the value of an existing key in
place, or append the new key. -/
def jobjSet (fields : List (String × JVal)) (k : String) (v : JVal) :
    List (String × JVal) :=
  if (List.any fields fun e => e.1 = k) then
    List.map (fun e => if e.1 = k then (k, v) else e) fields
  else fields ++ [(k, v)]

/-! ### Translated messages (core/i18n.py)

The i18n layer renders each key's template with its arguments interpolated
(in particular `regex_syntax_error` renders `{row}`, the line number, into
the text).  Messages are modelled as the key together with its arguments. -/

inductive TrMsg where
  | noLayers
  | noValidRules
  | regexCompileFailed (pat err : String)
  | styleFileNotExist (layer file : String)
  | styleApplySuccess (layer pat : String)
  | styleApplyFailed (layer file : String)
  | layerUnmatched (layer : String)
  | loadStyleFailed (message : String)
  | applyStyleException (err : String)
  | formatErrorMsg (line : Nat) (content : String)
  | regexSyntaxError (row : Nat) (err : String)
  | configNameEmpty
  | configNotExist
  | invalidConfigFormat
  deriving DecidableEq

/-! ### Rules and the external environment -/

/-- A style rule as handled throughout the source: a regular-expression
pattern and a style-file path. -/
structure Rule where
  pattern : String
  style_file : String
  deriving DecidableEq

/-- The outcome variants of `QgsMapLayer.loadNamedStyle` handled by
`_apply_style_to_layer`: a `(message, success)` tuple, a plain string
(older QGIS), or any other value. -/
inductive LoadResult where
  | tupleRes (message : String) (ok : Bool)
  | strRes (s : String)
  | otherRes
  deriving DecidableEq

/-- The external world: Python's `re` module, `os.path.exists` for style
files, and the QGIS host primitives.  Host calls return `Except`, the
`.error` case standing for a raised exception carrying `str(e)`. -/
structure Env where
  compileOk : String → Bool
  compileErr : String → String
  matchAt : String → String → Nat → Bool
  fileExists : String → Bool
  loadNamedStyle : String → String → Except String LoadResult
  triggerRepaint : String → Except String Unit
  refreshSymbology : String → Except String Unit

/-- `re.search(pattern, s)`: an unanchored substring search, succeeding
exactly when the anchored match attempt succeeds at some position of the
string (including the position just past the last character). -/
def reSearch (env : Env) (pat s : String) : Bool :=
  (List.any (List.range (s.length + 1)) fun i => env.matchAt pat s i)

/-! ### StyleManager (core/style_manager.py) -/

/-- `StyleManager._sanitize_filename`: replace each character of
`<>:"/\|?*` with an underscore. -/
def sanitize_filename (name : String) : String :=
  ⟨List.map
    (fun c =>
      if c = '<' ∨ c = '>' ∨ c = ':' ∨ c = '"' ∨ c = '/' ∨ c = '\\' ∨
         c = '|' ∨ c = '?' ∨ c = '*' then '_' else c)
    name.data⟩

/-- `StyleManager._get_config_path` (`os.path.join` modelled for a
separator-free sanitized name and a directory without trailing slash). -/
def get_config_path (dir name : String) : String :=
  dir ++ "/" ++ sanitize_filename name ++ ".json"

/-- One step of `StyleManager._parse_content`'s line loop, carried out over
the remaining lines with the 1-based number of the next line and the rules
accumulated so far (the source appends; the accumulator is reversed at the
end). -/
def parseLinesAux (env : Env) :
    List (List Char) → Nat → List Rule → Except TrMsg (List Rule)
  | [], _, acc => .ok acc.reverse
  | l :: ls, n, acc =>
    let line := pyStripList l
    if line = [] then parseLinesAux env ls (n + 1) acc
    else
      match matchRuleLine line with
      | none => .error (.formatErrorMsg n ⟨line⟩)
      | some (p, f) =>
        if env.compileOk p then
          parseLinesAux env ls (n + 1) ({ pattern := p, style_file := f } :: acc)
        else .error (.regexSyntaxError n (env.compileErr p))

/-- `StyleManager._parse_content`: empty or all-whitespace content parses to
no rules; otherwise the stripped content is split on newlines and each
non-blank stripped line must match the `"pattern": "file"` grammar and its
pattern must compile. -/
def parse_content (env : Env) (content : String) : Except TrMsg (List Rule) :=
  if pyStrip content = "" then .ok []
  else parseLinesAux env (splitOnNl (pyStrip content).data) 1 []

/-- The JSON object a rule is serialized to (`{"pattern": ..,
"style_file": ..}`, insertion order of the source). -/
def ruleToJson (r : Rule) : JVal :=
  .jobj [("pattern", .jstr r.pattern), ("style_file", .jstr r.style_file)]

/-- The JSON body `{"rules": [...]}` written by `save_config`. -/
def rulesJson (rules : List Rule) : JVal :=
  .jobj [("rules", .jarr (List.map ruleToJson rules))]

/-- `StyleManager.save_config`: validate the name, parse the content, delete
the old file on rename, then write `{"rules": ...}`.  Returns the
`(success, error)` pair together with the updated filesystem. -/
def save_config (env : Env) (dir : String) (fs : FS) (name content : String)
    (old_name : Option String) : (Bool × Option TrMsg) × FS :=
  if pyStrip name = "" then ((false, some .configNameEmpty), fs)
  else
    let name := pyStrip name
    match parse_content env content with
    | .error e => ((false, some e), fs)
    | .ok rules =>
      let fs1 :=
        match old_name with
        | some old =>
          if ¬ old = "" ∧ ¬ old = name then fsRemove fs (get_config_path dir old)
          else fs
        | none => fs
      ((true, none), fsWrite fs1 (get_config_path dir name) (rulesJson rules))

/-- `StyleManager.load_config`: `.ok none` when the file is missing,
`.ok (some config)` with the `name` field added when it holds a JSON
object, and `.error` for the uncaught `TypeError` raised by
`config['name'] = name` when the stored JSON is not an object. -/
def load_config (dir : String) (fs : FS) (name : String) :
    Except String (Option JVal) :=
  match fsRead fs (get_config_path dir name) with
  | none => .ok none
  | some (.jobj fields) => .ok (some (.jobj (jobjSet fields "name" (.jstr name))))
  | some _ => .error "TypeError"

/-- The line `"pattern": "style_file"` rendered by `get_content_text` for one
rule dict; modelled for string-valued fields, `none` standing for the
`AttributeError` a non-dict rule would raise (non-string field values,
which Python would stringify, are outside every claim's scope). -/
def ruleLineText (r : JVal) : Option String :=
  match r with
  | .jobj fields =>
    match (jlookup fields "pattern").getD (.jstr ""),
          (jlookup fields "style_file").getD (.jstr "") with
    | .jstr p, .jstr f => some ("\"" ++ p ++ "\": \"" ++ f ++ "\"")
    | _, _ => none
  | _ => none

/-- Python `'\n'.join(lines)`. -/
def joinNl : List String → String
  | [] => ""
  | [s] => s
  | s :: rest => s ++ "\n" ++ joinNl rest

/-- `StyleManager.get_content_text`: render every rule of
`config.get('rules', [])` as a line and join with newlines. -/
def get_content_text (config : JVal) : Option String :=
  match config with
  | .jobj fields =>
    match (jlookup fields "rules").getD (.jarr []) with
    | .jarr rs => (List.mapM ruleLineText rs).map joinNl
    | _ => none
  | _ => none

/-- The line `get_content_text` renders for a structured rule. -/
def ruleLine (r : Rule) : String :=
  "\"" ++ r.pattern ++ "\": \"" ++ r.style_file ++ "\""

/-- `StyleManager.export_config`: load the named config (a missing config
fails with `config_not_exist`), then write `{"rules": config.get('rules',
[])}` to the export path. -/
def export_config (dir : String) (fs : FS) (name epath : String) :
    Except String ((Bool × Option TrMsg) × FS) :=
  match load_config dir fs name with
  | .error e => .error e
  | .ok none => .ok ((false, some .configNotExist), fs)
  | .ok (some config) =>
    let rules :=
      match config with
      | .jobj fields => (jlookup fields "rules").getD (.jarr [])
      | _ => .jarr []
    .ok ((true, none), fsWrite fs epath (.jobj [("rules", rules)]))

/-- The distinct error values `import_config` returns: a translated message,
the literal `"EXISTS"` sentinel, or the text of a caught I/O or JSON
decoding exception. -/
inductive ImportMsg where
  | trMsg (m : TrMsg)
  | existsSentinel
  | ioError (e : String)
  deriving DecidableEq

/-- `os.path.basename` (POSIX): the part after the last slash. -/
def pyBasename (p : String) : String :=
  ⟨(List.takeWhile (fun c => ¬ c = '/') p.data.reverse).reverse⟩

/-- Drop a trailing `.json` (`filename[:-5]`), as `import_config` derives the
config name from the import file's basename. -/
def stripJsonExt (s : String) : String :=
  if List.isSuffixOf ['.', 'j', 's', 'o', 'n'] s.data then
    ⟨List.take (s.data.length - 5) s.data⟩
  else s

/-- The per-rule validation loop of `import_config`: every rule must be a
dict having both a `pattern` and a `style_file` key, and its pattern must
compile.  `.ok none` when all pass, `.ok (some m)` for the first validation
failure, `.error` for the uncaught `TypeError` of `re.compile` on a
non-string pattern. -/
def checkImportRules (env : Env) : List JVal → Except String (Option ImportMsg)
  | [] => .ok none
  | r :: rest =>
    match r with
    | .jobj fields =>
      if (jlookup fields "pattern").isSome ∧ (jlookup fields "style_file").isSome then
        match jlookup fields "pattern" with
        | some (.jstr p) =>
          if env.compileOk p then checkImportRules env rest
          else .ok (some (.trMsg (.regexSyntaxError 0 (env.compileErr p))))
        | _ => .error "TypeError"
      else .ok (some (.trMsg .invalidConfigFormat))
    | _ => .ok (some (.trMsg .invalidConfigFormat))

/-- `StyleManager.import_config`: derive the name from the import path's
basename, read and parse the file, check the structural shape, honour the
overwrite flag via the `"EXISTS"` sentinel, validate every rule, and write
`{"rules": rules}` (the rule dicts exactly as read) under the derived
name.  Returns `(success, error, name)` with the updated filesystem. -/
def import_config (env : Env) (dir : String) (fs : FS) (ipath : String)
    (overwrite : Bool) : Except String ((Bool × Option ImportMsg × String) × FS) :=
  let name := stripJsonExt (pyBasename ipath)
  if name = "" then .ok ((false, some (.trMsg .configNameEmpty), ""), fs)
  else
    match fsRead fs ipath with
    | none => .ok ((false, some (.ioError "FileNotFoundError"), ""), fs)
    | some config =>
      match config with
      | .jobj fields =>
        let existing := get_config_path dir name
        if fsExists fs existing ∧ ¬ overwrite then
          .ok ((false, some .existsSentinel, name), fs)
        else
          match (jlookup fields "rules").getD (.jarr []) with
          | .jarr rs =>
            match checkImportRules env rs with
            | .error e => .error e
            | .ok (some m) => .ok ((false, some m, ""), fs)
            | .ok none =>
              .ok ((true, none, name), fsWrite fs existing (.jobj [("rules", .jarr rs)]))
          | _ => .ok ((false, some (.trMsg .invalidConfigFormat), ""), fs)
      | _ => .ok ((false, some (.trMsg .invalidConfigFormat), ""), fs)

/-! ### LayerProcessor (core/layer_processor.py) -/

/-- The result dict of `apply_styles`: the three counts and the ordered
detail lines. -/
structure ApplyResult where
  success : Nat
  failed : Nat
  unmatched : Nat
  details : List TrMsg
  deriving DecidableEq

/-- A rule surviving pre-compilation: the source keeps the compiled regex,
the pattern text, and the style file; the compiled regex is its pattern
interpreted through `Env.matchAt`. -/
structure CompiledRule where
  pattern : String
  style_file : String
  deriving DecidableEq

/-- The pre-compilation loop of `apply_styles`: each rule's pattern is
compiled; rules that fail to compile are dropped, contributing a warning
detail instead.  Returns the compiled rules and the warning details, both
in rule order. -/
def compileRules (env : Env) : List Rule → List CompiledRule × List TrMsg
  | [] => ([], [])
  | r :: rest =>
    let t := compileRules env rest
    if env.compileOk r.pattern then
      (⟨r.pattern, r.style_file⟩ :: t.1, t.2)
    else
      (t.1, .regexCompileFailed r.pattern (env.compileErr r.pattern) :: t.2)

/-- The tail of `LayerProcessor._apply_style_to_layer` after a successful
style load: trigger a repaint and refresh the legend, returning `True`;
an exception from either host call is caught by the surrounding
`try`/`except` and yields `False`. -/
def afterLoadSteps (env : Env) (layer : String) : Bool :=
  match env.triggerRepaint layer with
  | .error _ => false
  | .ok _ =>
    match env.refreshSymbology layer with
    | .error _ => false
    | .ok _ => true

/-- `LayerProcessor._apply_style_to_layer`: load the named style, interpret
the tuple-or-string outcome, then repaint and refresh; any exception
raised inside the `try` block is caught and converted to `False`. -/
def apply_style_to_layer (env : Env) (layer styleFile : String) : Bool :=
  match env.loadNamedStyle layer styleFile with
  | .error _ => false
  | .ok (.tupleRes _ ok) => if ok then afterLoadSteps env layer else false
  | .ok (.strRes s) => if ¬ s = "" then false else afterLoadSteps env layer
  | .ok .otherRes => afterLoadSteps env layer

/-- The per-layer outcome of the matching loop, tagged with its detail
line. -/
inductive LayerOutcome where
  | applied (msg : TrMsg)
  | failedOut (msg : TrMsg)
  | unmatchedOut (msg : TrMsg)
  deriving DecidableEq

/-- The body of the matched branch of `apply_styles`' inner loop, given the
rule the layer resolved to: a missing style file counts as failed without
invoking the host, otherwise the apply step decides success or failure. -/
def matchedOutcome (env : Env) (layer : String) (r : CompiledRule) : LayerOutcome :=
  if ¬ env.fileExists r.style_file then
    .failedOut (.styleFileNotExist layer r.style_file)
  else if apply_style_to_layer env layer r.style_file then
    .applied (.styleApplySuccess layer r.pattern)
  else
    .failedOut (.styleApplyFailed layer r.style_file)

/-- The inner loop of `apply_styles` for one layer: scan the compiled rules
in order, act on the first whose pattern search succeeds on the layer
name, and `break`; fall through to the unmatched outcome. -/
def firstMatchStep (env : Env) : List CompiledRule → String → LayerOutcome
  | [], layer => .unmatchedOut (.layerUnmatched layer)
  | r :: rest, layer =>
    if reSearch env r.pattern layer then matchedOutcome env layer r
    else firstMatchStep env rest layer

/-- Merge one layer's outcome into the running result: bump the matching
counter and append the detail line. -/
def addOutcome (res : ApplyResult) (o : LayerOutcome) : ApplyResult :=
  match o with
  | .applied m =>
    { res with success := res.success + 1, details := res.details ++ [m] }
  | .failedOut m =>
    { res with failed := res.failed + 1, details := res.details ++ [m] }
  | .unmatchedOut m =>
    { res with unmatched := res.unmatched + 1, details := res.details ++ [m] }

/-- The outer layer loop of `apply_styles`. -/
def layersLoop (env : Env) (compiled : List CompiledRule) :
    List String → ApplyResult → ApplyResult
  | [], res => res
  | l :: ls, res => layersLoop env compiled ls (addOutcome res (firstMatchStep env compiled l))

/-- `LayerProcessor.apply_styles`, with the project's layer names passed
explicitly (the source reads them from `QgsProject.instance()`): empty
project short-circuits; rules are pre-compiled with warnings collected;
no surviving rule short-circuits; otherwise every layer is processed by
the first-match loop. -/
def apply_styles (env : Env) (rules : List Rule) (layers : List String) : ApplyResult :=
  let res0 : ApplyResult := ⟨0, 0, 0, []⟩
  if layers = [] then { res0 with details := [.noLayers] }
  else
    let c := compileRules env rules
    let res1 := { res0 with details := c.2 }
    if c.1 = [] then { res1 with details := res1.details ++ [.noValidRules] }
    else layersLoop env c.1 layers res1

/-! ### UpdateChecker (core/update_checker.py) -/

/-- Numeric value of a digit run (Python `int` on a decimal string). -/
def digitsVal (ds : List Char) : Nat :=
  List.foldl (fun a c => a * 10 + (c.toNat - '0'.toNat)) 0 ds

/-- The `(?:\.\d+)*` tail of `parse_version`'s regex: repeatedly consume a
dot followed by a digit run.  Structural recursion on a fuel bounded by
the input length, which each step strictly decreases, so the fuel never
runs out before the list does. -/
def verTailFuel : Nat → List Char → List Nat
  | 0, _ => []
  | fuel + 1, cs =>
    match cs with
    | '.' :: rest =>
      let ds := List.takeWhile Char.isDigit rest
      if ds = [] then []
      else digitsVal ds :: verTailFuel fuel (List.dropWhile Char.isDigit rest)
    | _ => []

/-- `parse_version`: strip leading `v`/`V`, match `^(\d+(?:\.\d+)*)`, and
return the dot-separated numeric components; `(0,)` when nothing
matches. -/
def parse_version (v : String) : List Nat :=
  let cs := List.dropWhile (fun c => c = 'v' ∨ c = 'V') v.data
  let ds := List.takeWhile Char.isDigit cs
  if ds = [] then [0]
  else
    let rest := List.dropWhile Char.isDigit cs
    digitsVal ds :: verTailFuel rest.length rest

/-- Python tuple comparison on number lists (lexicographic), with the
shorter-prefix cases included for completeness; `compare_versions` only
compares equal-length lists. -/
def tupleCmp : List Nat → List Nat → Int
  | [], [] => 0
  | [], _ :: _ => -1
  | _ :: _, [] => 1
  | a :: xs, b :: ys => if a > b then 1 else if a < b then -1 else tupleCmp xs ys

/-- Zero-pad a component list on the right to a target length. -/
def padZeros (l : List Nat) (n : Nat) : List Nat :=
  l ++ List.replicate (n - l.length) 0

/-- `compare_versions`: parse both versions, zero-pad the shorter tuple, and
compare lexicographically, returning 1 / -1 / 0. -/
def compare_versions (v1 v2 : String) : Int :=
  let p1 := parse_version v1
  let p2 := parse_version v2
  let m := max p1.length p2.length
  tupleCmp (padZeros p1 m) (padZeros p2 m)

/-- Modelled from the spec: "compares dotted-numeric version tuples
component-wise after zero-padding the shorter one", written as a direct
component-wise recursion that treats the missing components of the
shorter tuple as zeros.  Used only to compare against the code's
`compare_versions`, which pads explicitly and then compares tuples. -/
def cmpComponents : List Nat → List Nat → Int
  | [], [] => 0
  | [], b :: bs => if 0 < b then -1 else cmpComponents [] bs
  | a :: xs, [] => if 0 < a then 1 else cmpComponents xs []
  | a :: xs, b :: bs => if b < a then 1 else if a < b then -1 else cmpComponents xs bs

/-- `UpdateInfo` (update_checker.py). -/
structure UpdateInfo where
  has_update : Bool
  current_version : String
  latest_version : String
  download_url : String
  changelog : String
  release_date : String
  error : Option String
  deriving DecidableEq

/-- What `_fetch_remote_version` produced, as seen by `check_update`'s
`try`/`except` chain: the parsed JSON on success, or one of the three
caught exception classes. -/
inductive FetchResult where
  | fetched (j : JVal)
  | urlError (reason : String)
  | jsonDecodeError (e : String)
  | otherError (e : String)

/-- Python falsiness of a JSON value (`if not latest_version`). -/
def pyFalsy (j : JVal) : Bool :=
  match j with
  | .jnull => true
  | .jbool b => ¬ b
  | .jint n => n = 0
  | .jstr s => s = ""
  | .jarr items => items.isEmpty
  | .jobj fields => fields.isEmpty

/-- `remote_data.get(k, "")` coerced to the string stored in `UpdateInfo`
(claims only involve string-valued descriptor fields). -/
def jGetStrD (fields : List (String × JVal)) (k : String) : String :=
  match (jlookup fields k).getD (.jstr "") with
  | .jstr s => s
  | _ => ""

/-- `UpdateChecker.check_update`, with the cached current version and the
fetch outcome passed explicitly: caught exceptions become a no-update
result with error text; a falsy remote version is rejected; a string
remote version is compared against the current one, and `has_update`
holds exactly when the comparison is positive.  A non-string truthy
version would raise `AttributeError` inside `compare_versions`, caught by
the generic handler. -/
def check_update (current : String) (fetch : FetchResult) : UpdateInfo :=
  match fetch with
  | .urlError r => ⟨false, current, "", "", "", "", some ("Network error: " ++ r)⟩
  | .jsonDecodeError _ => ⟨false, current, "", "", "", "", some "Invalid response format"⟩
  | .otherError e => ⟨false, current, "", "", "", "", some e⟩
  | .fetched remote =>
    match remote with
    | .jobj fields =>
      let latest := (jlookup fields "version").getD (.jstr "")
      if pyFalsy latest then
        ⟨false, current, "", "", "", "", some "Invalid version data from server"⟩
      else
        match latest with
        | .jstr lv =>
          ⟨decide (compare_versions lv current > 0), current, lv,
            jGetStrD fields "download_url", jGetStrD fields "changelog",
            jGetStrD fields "release_date", none⟩
        | _ => ⟨false, current, "", "", "", "", some "AttributeError"⟩
    | _ => ⟨false, current, "", "", "", "", some "AttributeError"⟩

/-! ### Concrete environments used by witnesses and counterexamples -/

def envC1 : Env :=
  ⟨fun _ => true, fun _ => "", fun p s i => p = "b" ∧ s = "xbx" ∧ i = 1,
   fun _ => false, fun _ _ => .ok .otherRes, fun _ => .ok (), fun _ => .ok ()⟩

def envC10 : Env :=
  ⟨fun _ => true, fun _ => "", fun _ _ _ => false,
   fun _ => false, fun _ _ => .ok .otherRes, fun _ => .ok (), fun _ => .ok ()⟩

def envC5 : Env :=
  ⟨fun p => ¬ p = "[", fun _ => "bad", fun _ _ _ => false,
   fun _ => false, fun _ _ => .ok .otherRes, fun _ => .ok (), fun _ => .ok ()⟩

def envC4 : Env :=
  ⟨fun _ => true, fun _ => "", fun _ _ _ => false,
   fun _ => true, fun _ _ => .error "boom", fun _ => .ok (), fun _ => .ok ()⟩

def envC3yes : Env :=
  ⟨fun _ => true, fun _ => "", fun p s i => p = "^road_.*" ∧ s = "road_main" ∧ i = 0,
   fun f => f = "/styles/road.qml", fun _ _ => .ok (.tupleRes "" true),
   fun _ => .ok (), fun _ => .ok ()⟩

def envC3no : Env :=
  ⟨fun _ => true, fun _ => "", fun p s i => p = "^road_.*" ∧ s = "road_main" ∧ i = 0,
   fun _ => false, fun _ _ => .ok (.tupleRes "" true),
   fun _ => .ok (), fun _ => .ok ()⟩

/-- Environment whose only non-compiling pattern is `[`. -/
def envC2 : Env :=
  ⟨fun p => ¬ p = "[", fun _ => "unterminated character set",
   fun _ _ _ => false, fun _ => false, fun _ _ => .ok .otherRes,
   fun _ => .ok (), fun _ => .ok ()⟩

/-- Environment in which every pattern compiles (the config-store claims
never consult the matcher or the host). -/
def envAllOk : Env :=
  ⟨fun _ => true, fun _ => "", fun _ _ _ => false,
   fun _ => false, fun _ _ => .ok .otherRes, fun _ => .ok (), fun _ => .ok ()⟩

/-- A rule dict with both fields empty, as JSON. -/
def emptyRuleJson : JVal :=
  .jobj [("pattern", .jstr ""), ("style_file", .jstr "")]

/-- An import file carrying the single empty rule. -/
def c9ImportFile : JVal := .jobj [("rules", .jarr [emptyRuleJson])]

/-! ### Predicates used in theorem statements -/

/-- A line the `_parse_content` loop passes over without stopping: blank
after stripping, or a grammatical rule line whose pattern compiles. -/
def lineOk (env : Env) (l : List Char) : Prop :=
  pyStripList l = [] ∨
  ∃ p f, matchRuleLine (pyStripList l) = some (p, f) ∧ env.compileOk p = true

/-- A rule whose rendered line survives the text round trip: both fields
non-empty and newline-free, the style path quote-free, and the pattern
compiling. -/
def GoodRule (env : Env) (r : Rule) : Prop :=
  ¬ r.pattern = "" ∧ ¬ r.style_file = "" ∧
  (∀ c ∈ r.pattern.data, pyDotChar c = true) ∧
  (∀ c ∈ r.style_file.data, pyDotChar c = true ∧ ¬ c = '"') ∧
  env.compileOk r.pattern = true

/-! ## Helper lemmas -/

theorem reSearch_iff (env : Env) (p s : String) :
    reSearch env p s = true ↔ ∃ k, k ≤ s.length ∧ env.matchAt p s k = true := by
  simp [reSearch, List.any_eq_true, List.mem_range, Nat.lt_succ_iff]

theorem compileRules_fst (env : Env) (rules : List Rule) :
    (compileRules env rules).1 =
      List.map (fun r => (⟨r.pattern, r.style_file⟩ : CompiledRule))
        (List.filter (fun r => env.compileOk r.pattern) rules) := by
  induction rules with
  | nil => rfl
  | cons r rest ih =>
    by_cases h : env.compileOk r.pattern
    · simp [compileRules, h, ih]
    · simp [compileRules, h, ih]

theorem compileRules_snd (env : Env) (rules : List Rule) :
    (compileRules env rules).2 =
      List.map (fun r => TrMsg.regexCompileFailed r.pattern (env.compileErr r.pattern))
        (List.filter (fun r => !(env.compileOk r.pattern)) rules) := by
  induction rules with
  | nil => rfl
  | cons r rest ih =>
    by_cases h : env.compileOk r.pattern
    · simp [compileRules, h, ih]
    · simp [compileRules, h, ih]

theorem layersLoop_decompose (env : Env) (c : List CompiledRule) :
    ∀ (ls : List String) (res : ApplyResult),
      layersLoop env c ls res =
        ⟨res.success + (layersLoop env c ls ⟨0, 0, 0, []⟩).success,
         res.failed + (layersLoop env c ls ⟨0, 0, 0, []⟩).failed,
         res.unmatched + (layersLoop env c ls ⟨0, 0, 0, []⟩).unmatched,
         res.details ++ (layersLoop env c ls ⟨0, 0, 0, []⟩).details⟩ := by
  intro ls
  induction ls with
  | nil => intro res; cases res; simp [layersLoop]
  | cons l ls ih =>
    intro res
    show layersLoop env c ls (addOutcome res (firstMatchStep env c l)) = _
    rw [ih (addOutcome res (firstMatchStep env c l))]
    conv_rhs =>
      rw [show layersLoop env c (l :: ls) ⟨0, 0, 0, []⟩ =
            layersLoop env c ls (addOutcome ⟨0, 0, 0, []⟩ (firstMatchStep env c l)) from rfl]
      rw [ih (addOutcome ⟨0, 0, 0, []⟩ (firstMatchStep env c l))]
    cases h : firstMatchStep env c l with
    | applied m =>
      simp only [addOutcome, ApplyResult.mk.injEq]
      refine ⟨by omega, by omega, by omega, by simp⟩
    | failedOut m =>
      simp only [addOutcome, ApplyResult.mk.injEq]
      refine ⟨by omega, by omega, by omega, by simp⟩
    | unmatchedOut m =>
      simp only [addOutcome, ApplyResult.mk.injEq]
      refine ⟨by omega, by omega, by omega, by simp⟩

theorem layersLoop_total (env : Env) (c : List CompiledRule) :
    ∀ (ls : List String) (res : ApplyResult),
      (layersLoop env c ls res).success + (layersLoop env c ls res).failed +
        (layersLoop env c ls res).unmatched =
      res.success + res.failed + res.unmatched + ls.length := by
  intro ls
  induction ls with
  | nil => intro res; simp [layersLoop]
  | cons l ls ih =>
    intro res
    rw [show layersLoop env c (l :: ls) res =
          layersLoop env c ls (addOutcome res (firstMatchStep env c l)) from rfl]
    rw [ih (addOutcome res (firstMatchStep env c l))]
    cases firstMatchStep env c l <;> simp [addOutcome, List.length_cons] <;> omega

/-! ## C1: first-match-wins rule resolution -/

/-- C1: for every ordered rule list and every layer, the inner loop of
`apply_styles` resolves the layer using the first compiled rule, in the
given order, whose pattern matches the layer's name; rules at later
positions are skipped.  A pattern "matches" via `reSearch`, the
unanchored substring search succeeding at some position of the name
(second conjunct). -/
theorem c1_first_match_wins (env : Env) (compiled : List CompiledRule)
    (layer : String) (i : Nat) (hi : i < compiled.length)
    (hbefore : ∀ j, (hj : j < i) →
      reSearch env (compiled.get ⟨j, hj.trans hi⟩).pattern layer = false)
    (hmatch : reSearch env (compiled.get ⟨i, hi⟩).pattern layer = true) :
    firstMatchStep env compiled layer = matchedOutcome env layer (compiled.get ⟨i, hi⟩) ∧
    (∀ p s, reSearch env p s = true ↔ ∃ k, k ≤ s.length ∧ env.matchAt p s k = true) := by
  refine ⟨?_, fun p s => reSearch_iff env p s⟩
  induction compiled generalizing i with
  | nil => exact absurd hi (Nat.not_lt_zero i)
  | cons r rest ih =>
    cases i with
    | zero =>
      simp only [List.get] at hmatch ⊢
      simp [firstMatchStep, hmatch]
    | succ i' =>
      have h0 : reSearch env r.pattern layer = false := hbefore 0 (Nat.succ_pos i')
      simp only [List.get] at h0 hmatch ⊢
      rw [show firstMatchStep env (r :: rest) layer =
            (if reSearch env r.pattern layer then matchedOutcome env layer r
             else firstMatchStep env rest layer) from rfl]
      rw [h0]
      simp only [Bool.false_eq_true, if_false]
      exact ih i' (Nat.lt_of_succ_lt_succ hi)
        (fun j hj => hbefore (j + 1) (Nat.succ_lt_succ hj)) hmatch

/-- Witness for C1: with a two-rule list where only the second rule
matches the layer `xbx`, the loop resolves with the second rule. -/
theorem c1_witness :
    firstMatchStep envC1 [⟨"a", "f1"⟩, ⟨"b", "f2"⟩] "xbx" =
      matchedOutcome envC1 "xbx" ⟨"b", "f2"⟩ := by
  have h := c1_first_match_wins envC1 [⟨"a", "f1"⟩, ⟨"b", "f2"⟩] "xbx" 1 (by decide)
    (fun j hj => by
      have hj0 : j = 0 := Nat.lt_one_iff.mp hj
      subst hj0
      exact (by decide : reSearch envC1 "a" "xbx" = false))
    (by decide)
  exact h.1

/-! ## C10: the three counts partition the layers -/

/-- C10: whenever at least one rule's pattern compiles and there is at
least one layer, the three counts of `apply_styles` sum to the number of
layers. -/
theorem c10_counts_partition (env : Env) (rules : List Rule) (layers : List String)
    (h1 : ∃ r ∈ rules, env.compileOk r.pattern = true) (h2 : ¬ layers = []) :
    (apply_styles env rules layers).success + (apply_styles env rules layers).failed +
      (apply_styles env rules layers).unmatched = layers.length := by
  obtain ⟨r, hr, hc⟩ := h1
  have hne : ¬ (compileRules env rules).1 = [] := by
    rw [compileRules_fst]
    intro hnil
    rw [List.map_eq_nil_iff] at hnil
    have hfil := List.filter_eq_nil_iff.mp hnil r hr
    simp [hc] at hfil
  simp only [apply_styles, if_neg h2, if_neg hne]
  rw [layersLoop_total]
  simp

/-- Witness for C10: a concrete environment where no layer matches; the
two layers both land in the unmatched count. -/
theorem c10_witness :
    (apply_styles envC10 [⟨"a", "f"⟩] ["x", "y"]).success +
      (apply_styles envC10 [⟨"a", "f"⟩] ["x", "y"]).failed +
      (apply_styles envC10 [⟨"a", "f"⟩] ["x", "y"]).unmatched = 2 :=
  c10_counts_partition envC10 [⟨"a", "f"⟩] ["x", "y"]
    ⟨⟨"a", "f"⟩, by simp, rfl⟩ (by simp)

/-! ## C5: invalid rules dropped, valid rules still applied -/

theorem filter_compileOk_idem (env : Env) (rules : List Rule) :
    List.filter (fun r => env.compileOk r.pattern)
        (List.filter (fun r => env.compileOk r.pattern) rules) =
      List.filter (fun r => env.compileOk r.pattern) rules := by
  induction rules with
  | nil => rfl
  | cons r rest ih =>
    by_cases h : env.compileOk r.pattern
    · simp [List.filter, h, ih]
    · simp [List.filter, h, ih]

/-- C5: pre-compilation drops exactly the rules whose pattern fails to
compile, each contributing a warning detail (first two conjuncts); when
no rule survives, all three counts of the result are zero (third
conjunct); and the surviving rules are evaluated against every layer
exactly as if the failing rules had not been present, so the three
counts agree with a run on the compiling rules alone (last conjunct). -/
theorem c5_invalid_rules_dropped (env : Env) (rules : List Rule) (layers : List String) :
    (compileRules env rules).1 =
      List.map (fun r => (⟨r.pattern, r.style_file⟩ : CompiledRule))
        (List.filter (fun r => env.compileOk r.pattern) rules) ∧
    (compileRules env rules).2 =
      List.map (fun r => TrMsg.regexCompileFailed r.pattern (env.compileErr r.pattern))
        (List.filter (fun r => !(env.compileOk r.pattern)) rules) ∧
    ((compileRules env rules).1 = [] →
      (apply_styles env rules layers).success = 0 ∧
      (apply_styles env rules layers).failed = 0 ∧
      (apply_styles env rules layers).unmatched = 0) ∧
    ((apply_styles env rules layers).success =
        (apply_styles env (List.filter (fun r => env.compileOk r.pattern) rules) layers).success ∧
      (apply_styles env rules layers).failed =
        (apply_styles env (List.filter (fun r => env.compileOk r.pattern) rules) layers).failed ∧
      (apply_styles env rules layers).unmatched =
        (apply_styles env (List.filter (fun r => env.compileOk r.pattern) rules) layers).unmatched) := by
  refine ⟨compileRules_fst env rules, compileRules_snd env rules, ?_, ?_⟩
  · intro hnil
    by_cases hl : layers = []
    · simp [apply_styles, hl]
    · simp [apply_styles, hl, hnil]
  · have hsame : (compileRules env (List.filter (fun r => env.compileOk r.pattern) rules)).1 =
        (compileRules env rules).1 := by
      rw [compileRules_fst, compileRules_fst, filter_compileOk_idem]
    by_cases hl : layers = []
    · simp [apply_styles, hl]
    · by_cases hnil : (compileRules env rules).1 = []
      · simp [apply_styles, hl, hnil, hsame ▸ hnil, hsame]
      · have hnil2 : ¬ (compileRules env (List.filter (fun r => env.compileOk r.pattern) rules)).1 = [] := by
          rw [hsame]; exact hnil
        simp only [apply_styles, if_neg hl, if_neg hnil, if_neg hnil2]
        rw [hsame]
        rw [layersLoop_decompose env (compileRules env rules).1 layers
              ⟨0, 0, 0, (compileRules env rules).2⟩,
            layersLoop_decompose env (compileRules env rules).1 layers
              ⟨0, 0, 0, (compileRules env (List.filter (fun r => env.compileOk r.pattern) rules)).2⟩]
        simp

/-- Witness for C5: the invalid pattern `[` is dropped with a warning while
the valid rule is still evaluated against both layers, and a rule list
where nothing compiles yields the all-zero result. -/
theorem c5_witness :
    (compileRules envC5 [⟨"[", "f0"⟩, ⟨"a", "f1"⟩]).1 = [⟨"a", "f1"⟩] ∧
    (compileRules envC5 [⟨"[", "f0"⟩, ⟨"a", "f1"⟩]).2 = [.regexCompileFailed "[" "bad"] ∧
    (apply_styles envC5 [⟨"[", "f0"⟩, ⟨"a", "f1"⟩] ["x", "y"]).unmatched =
      (apply_styles envC5 [⟨"a", "f1"⟩] ["x", "y"]).unmatched ∧
    (apply_styles envC5 [⟨"[", "f0"⟩] ["x", "y"]).success = 0 ∧
    (apply_styles envC5 [⟨"[", "f0"⟩] ["x", "y"]).failed = 0 ∧
    (apply_styles envC5 [⟨"[", "f0"⟩] ["x", "y"]).unmatched = 0 := by
  have h1 := c5_invalid_rules_dropped envC5 [⟨"[", "f0"⟩, ⟨"a", "f1"⟩] ["x", "y"]
  have h2 := c5_invalid_rules_dropped envC5 [⟨"[", "f0"⟩] ["x", "y"]
  refine ⟨?_, ?_, ?_, h2.2.2.1 (by decide)⟩
  · rw [h1.1]; decide
  · rw [h1.2.1]; decide
  · have := h1.2.2.2.2.2
    rw [this]
    have hf : List.filter (fun r => envC5.compileOk r.pattern) [⟨"[", "f0"⟩, ⟨"a", "f1"⟩] =
        [(⟨"a", "f1"⟩ : Rule)] := by decide
    rw [hf]

/-! ## C4: per-layer apply exceptions are caught and isolated -/

/-- C4: `apply_styles` never propagates a style-apply exception.  A raised
`loadNamedStyle` makes `_apply_style_to_layer` return `False` (first
conjunct); for a layer resolved to a rule whose style file exists, that
converts the layer's outcome into a failed count with its detail line
(second and third conjuncts); and the layer loop processes the remaining
layers regardless, each layer contributing additively to the final
result (last two conjuncts).  Totality of `apply_styles` itself models
"never raises". -/
theorem c4_apply_exception_isolated (env : Env) :
    (∀ layer sf e, env.loadNamedStyle layer sf = .error e →
      apply_style_to_layer env layer sf = false) ∧
    (∀ layer (r : CompiledRule) e, env.fileExists r.style_file = true →
      env.loadNamedStyle layer r.style_file = .error e →
      matchedOutcome env layer r = .failedOut (.styleApplyFailed layer r.style_file)) ∧
    (∀ res m, addOutcome res (.failedOut m) =
      { res with failed := res.failed + 1, details := res.details ++ [m] }) ∧
    (∀ compiled l ls res, layersLoop env compiled (l :: ls) res =
      layersLoop env compiled ls (addOutcome res (firstMatchStep env compiled l))) ∧
    (∀ compiled ls res, (layersLoop env compiled ls res).failed =
      res.failed + (layersLoop env compiled ls ⟨0, 0, 0, []⟩).failed) := by
  refine ⟨?_, ?_, fun res m => rfl, fun compiled l ls res => rfl, ?_⟩
  · intro layer sf e he
    simp [apply_style_to_layer, he]
  · intro layer r e hex he
    have hfalse : apply_style_to_layer env layer r.style_file = false := by
      simp [apply_style_to_layer, he]
    simp [matchedOutcome, hex, hfalse]
  · intro compiled ls res
    rw [layersLoop_decompose env compiled ls res]

/-- Witness for C4: an environment whose style load always raises; the
apply step returns false and the matched outcome is the failed one. -/
theorem c4_witness :
    apply_style_to_layer envC4 "L" "f" = false ∧
    matchedOutcome envC4 "L" ⟨"x", "f"⟩ = .failedOut (.styleApplyFailed "L" "f") := by
  have h := c4_apply_exception_isolated envC4
  exact ⟨h.1 "L" "f" "boom" rfl, h.2.1 "L" ⟨"x", "f"⟩ "boom" rfl rfl⟩

/-! ## C3: the road-rule scenario -/

/-- C3: with the single rule `("^road_.*", "/styles/road.qml")` and layers
`road_main`, `building_1`: when the style file exists and the host style
load succeeds the result is success 1 / failed 0 / unmatched 1, and when
the style file is missing the result is success 0 / failed 1 / unmatched 1.
The missing-file conjunct makes no assumption about `loadNamedStyle`, so
it holds whatever the host's style loader would do — the load is not
consulted for that layer. -/
theorem c3_road_scenarios (env : Env)
    (hc : env.compileOk "^road_.*" = true)
    (hm1 : reSearch env "^road_.*" "road_main" = true)
    (hm2 : reSearch env "^road_.*" "building_1" = false) :
    (env.fileExists "/styles/road.qml" = true →
      apply_style_to_layer env "road_main" "/styles/road.qml" = true →
      apply_styles env [⟨"^road_.*", "/styles/road.qml"⟩] ["road_main", "building_1"] =
        ⟨1, 0, 1, [.styleApplySuccess "road_main" "^road_.*",
                   .layerUnmatched "building_1"]⟩) ∧
    (env.fileExists "/styles/road.qml" = false →
      apply_styles env [⟨"^road_.*", "/styles/road.qml"⟩] ["road_main", "building_1"] =
        ⟨0, 1, 1, [.styleFileNotExist "road_main" "/styles/road.qml",
                   .layerUnmatched "building_1"]⟩) := by
  constructor
  · intro hfe happly
    simp [apply_styles, compileRules, hc, layersLoop, firstMatchStep, hm1, hm2,
      matchedOutcome, hfe, happly, addOutcome]
  · intro hfe
    simp [apply_styles, compileRules, hc, layersLoop, firstMatchStep, hm1, hm2,
      matchedOutcome, hfe, addOutcome]

/-- Witness for C3: a concrete environment matching `^road_.*` on
`road_main` only, in both the file-exists and file-missing variants. -/
theorem c3_witness :
    apply_styles envC3yes [⟨"^road_.*", "/styles/road.qml"⟩] ["road_main", "building_1"] =
      ⟨1, 0, 1, [.styleApplySuccess "road_main" "^road_.*",
                 .layerUnmatched "building_1"]⟩ ∧
    apply_styles envC3no [⟨"^road_.*", "/styles/road.qml"⟩] ["road_main", "building_1"] =
      ⟨0, 1, 1, [.styleFileNotExist "road_main" "/styles/road.qml",
                 .layerUnmatched "building_1"]⟩ := by
  constructor
  · exact (c3_road_scenarios envC3yes rfl (by decide) (by decide)).1 rfl (by decide)
  · exact (c3_road_scenarios envC3no rfl (by decide) (by decide)).2 rfl

/-! ## C8: version comparison and the update decision -/

theorem tupleCmp_trichotomy : ∀ a b : List Nat,
    tupleCmp a b = 1 ∨ tupleCmp a b = 0 ∨ tupleCmp a b = -1 := by
  intro a
  induction a with
  | nil => intro b; cases b <;> simp [tupleCmp]
  | cons x xs ih =>
    intro b
    cases b with
    | nil => simp [tupleCmp]
    | cons y ys =>
      by_cases h1 : x > y
      · simp [tupleCmp, h1]
      · by_cases h2 : x < y
        · simp [tupleCmp, h1, h2]
        · simpa [tupleCmp, h1, h2] using ih ys

theorem padZeros_cons (x : Nat) (xs : List Nat) (n : Nat) :
    padZeros (x :: xs) (n + 1) = x :: padZeros xs n := by
  simp [padZeros, Nat.succ_sub_succ]

theorem tupleCmp_rep_right : ∀ xs : List Nat,
    tupleCmp xs (List.replicate xs.length 0) = cmpComponents xs [] := by
  intro xs
  induction xs with
  | nil => simp [tupleCmp, cmpComponents]
  | cons x xs ih =>
    by_cases h : 0 < x
    · simp [tupleCmp, cmpComponents, List.replicate, h]
    · simp [tupleCmp, cmpComponents, List.replicate, h, Nat.not_lt.mp h, ih]

theorem tupleCmp_rep_left : ∀ bs : List Nat,
    tupleCmp (List.replicate bs.length 0) bs = cmpComponents [] bs := by
  intro bs
  induction bs with
  | nil => simp [tupleCmp, cmpComponents]
  | cons b bs ih =>
    by_cases h : 0 < b
    · simp [tupleCmp, cmpComponents, List.replicate, h]
    · simp [tupleCmp, cmpComponents, List.replicate, h, Nat.not_lt.mp h, ih]

theorem tupleCmp_pad_eq_cmpComponents : ∀ a b : List Nat,
    tupleCmp (padZeros a (max a.length b.length)) (padZeros b (max a.length b.length)) =
      cmpComponents a b := by
  intro a
  induction a with
  | nil =>
    intro b
    have h1 : padZeros ([] : List Nat) (max 0 b.length) = List.replicate b.length 0 := by
      simp [padZeros]
    have h2 : padZeros b (max 0 b.length) = b := by
      simp [padZeros]
    rw [List.length_nil, h1, h2, tupleCmp_rep_left]
  | cons x xs ih =>
    intro b
    cases b with
    | nil =>
      have h1 : padZeros (x :: xs) (max (x :: xs).length 0) = x :: xs := by
        simp [padZeros]
      have h2 : padZeros ([] : List Nat) (max (x :: xs).length 0) =
          List.replicate (x :: xs).length 0 := by
        simp [padZeros]
      simp only [List.length_nil]
      rw [h1, h2, tupleCmp_rep_right]
    | cons y ys =>
      have hm : max (x :: xs).length (y :: ys).length = max xs.length ys.length + 1 := by
        simp [List.length_cons, Nat.succ_max_succ]
      rw [hm, padZeros_cons, padZeros_cons]
      by_cases h1 : y < x
      · simp [tupleCmp, cmpComponents, h1]
      · by_cases h2 : x < y
        · simp [tupleCmp, cmpComponents, h1, h2]
        · simpa [tupleCmp, cmpComponents, h1, h2] using ih ys

/-- C8: `compare_versions` is exactly the component-wise comparison of the
parsed dotted-numeric tuples with the shorter one zero-padded (first
conjunct, against the spec-side `cmpComponents`; in particular `1.2` and
`1.2.0` compare equal, second conjunct), and on a successful fetch with
a non-empty remote version string, `check_update` reports `has_update`
exactly when the remote version compares strictly greater than the
current one (third conjunct). -/
theorem c8_version_compare (v1 v2 current lv : String) (fields : List (String × JVal)) :
    compare_versions v1 v2 = cmpComponents (parse_version v1) (parse_version v2) ∧
    compare_versions "1.2" "1.2.0" = 0 ∧
    (jlookup fields "version" = some (.jstr lv) → ¬ lv = "" →
      ((check_update current (.fetched (.jobj fields))).has_update = true ↔
        compare_versions lv current = 1)) := by
  refine ⟨tupleCmp_pad_eq_cmpComponents (parse_version v1) (parse_version v2), by decide, ?_⟩
  intro hlv hne
  have htri : compare_versions lv current = 1 ∨ compare_versions lv current = 0 ∨
      compare_versions lv current = -1 := tupleCmp_trichotomy _ _
  have hfal : pyFalsy (.jstr lv) = false := by simp [pyFalsy, hne]
  simp only [check_update, hlv, Option.getD_some, hfal, Bool.false_eq_true, if_false,
    decide_eq_true_eq]
  omega

/-- Witness for C8: `1.2` equals `1.2.0`, and the remote version `1.3`
against the current `1.2.9` triggers an update exactly by the strict
comparison. -/
theorem c8_witness :
    compare_versions "1.2" "1.2.0" = 0 ∧
    ((check_update "1.2.9" (.fetched (.jobj [("version", .jstr "1.3")]))).has_update = true ↔
      compare_versions "1.3" "1.2.9" = 1) := by
  have h := c8_version_compare "1.2" "1.2.0" "1.2.9" "1.3" [("version", .jstr "1.3")]
  exact ⟨h.2.1, h.2.2 rfl (by decide)⟩

/-! ## C2: save_config validation failures -/

theorem matchRuleLine_nil : matchRuleLine [] = none := rfl

theorem parseAux_format_error (env : Env) :
    ∀ (ls : List (List Char)) (k n : Nat) (acc : List Rule) (hk : k < ls.length),
      (∀ j, (hj : j < k) → lineOk env (ls.get ⟨j, hj.trans hk⟩)) →
      ¬ pyStripList (ls.get ⟨k, hk⟩) = [] →
      matchRuleLine (pyStripList (ls.get ⟨k, hk⟩)) = none →
      parseLinesAux env ls n acc =
        .error (.formatErrorMsg (n + k) ⟨pyStripList (ls.get ⟨k, hk⟩)⟩) := by
  intro ls
  induction ls with
  | nil => intro k n acc hk; exact absurd hk (Nat.not_lt_zero k)
  | cons l ls ih =>
    intro k n acc hk hbefore hne hmatch
    cases k with
    | zero =>
      simp only [List.get] at hne hmatch ⊢
      simp [parseLinesAux, hne, hmatch]
    | succ k' =>
      have h0 : lineOk env l := hbefore 0 (Nat.succ_pos k')
      have hk' : k' < ls.length := Nat.lt_of_succ_lt_succ hk
      simp only [List.get] at hne hmatch ⊢
      rw [show n + (k' + 1) = (n + 1) + k' by omega]
      rcases h0 with hblank | ⟨p, f, hm, hc⟩
      · rw [show parseLinesAux env (l :: ls) n acc = parseLinesAux env ls (n + 1) acc by
          simp [parseLinesAux, hblank]]
        exact ih k' (n + 1) acc hk'
          (fun j hj => hbefore (j + 1) (Nat.succ_lt_succ hj)) hne hmatch
      · have hlb : ¬ pyStripList l = [] := by
          intro h
          rw [h, matchRuleLine_nil] at hm
          exact Option.noConfusion hm
        rw [show parseLinesAux env (l :: ls) n acc =
              parseLinesAux env ls (n + 1) ({ pattern := p, style_file := f } :: acc) by
          simp [parseLinesAux, hlb, hm, hc]]
        exact ih k' (n + 1) _ hk'
          (fun j hj => hbefore (j + 1) (Nat.succ_lt_succ hj)) hne hmatch

theorem parseAux_regex_error (env : Env) :
    ∀ (ls : List (List Char)) (k n : Nat) (acc : List Rule) (hk : k < ls.length)
      (p f : String),
      (∀ j, (hj : j < k) → lineOk env (ls.get ⟨j, hj.trans hk⟩)) →
      matchRuleLine (pyStripList (ls.get ⟨k, hk⟩)) = some (p, f) →
      env.compileOk p = false →
      parseLinesAux env ls n acc =
        .error (.regexSyntaxError (n + k) (env.compileErr p)) := by
  intro ls
  induction ls with
  | nil => intro k n acc hk; exact absurd hk (Nat.not_lt_zero k)
  | cons l ls ih =>
    intro k n acc hk p f hbefore hmatch hcomp
    cases k with
    | zero =>
      simp only [List.get] at hmatch ⊢
      have hlb : ¬ pyStripList l = [] := by
        intro h
        rw [h, matchRuleLine_nil] at hmatch
        exact Option.noConfusion hmatch
      simp [parseLinesAux, hlb, hmatch, hcomp]
    | succ k' =>
      have h0 : lineOk env l := hbefore 0 (Nat.succ_pos k')
      have hk' : k' < ls.length := Nat.lt_of_succ_lt_succ hk
      simp only [List.get] at hmatch ⊢
      rw [show n + (k' + 1) = (n + 1) + k' by omega]
      rcases h0 with hblank | ⟨p0, f0, hm0, hc0⟩
      · rw [show parseLinesAux env (l :: ls) n acc = parseLinesAux env ls (n + 1) acc by
          simp [parseLinesAux, hblank]]
        exact ih k' (n + 1) acc hk' p f
          (fun j hj => hbefore (j + 1) (Nat.succ_lt_succ hj)) hmatch hcomp
      · have hlb : ¬ pyStripList l = [] := by
          intro h
          rw [h, matchRuleLine_nil] at hm0
          exact Option.noConfusion hm0
        rw [show parseLinesAux env (l :: ls) n acc =
              parseLinesAux env ls (n + 1) ({ pattern := p0, style_file := f0 } :: acc) by
          simp [parseLinesAux, hlb, hm0, hc0]]
        exact ih k' (n + 1) _ hk' p f
          (fun j hj => hbefore (j + 1) (Nat.succ_lt_succ hj)) hmatch hcomp

/-- C2: `save_config` fails without touching the filesystem when the name is
empty or whitespace (first conjunct) or when the content fails to parse
(second conjunct, covering both the grammar and the regex conditions);
and a parse stops at the first offending line `k` (0-based here), the
grammar failure reporting line `k + 1` and the invalid-regex failure
reporting the 1-based row `k + 1` together with the compile error text
(third conjunct). -/
theorem c2_save_validation (env : Env) (dir : String) (fs : FS)
    (name content : String) (old_name : Option String) :
    (pyStrip name = "" →
      save_config env dir fs name content old_name = ((false, some .configNameEmpty), fs)) ∧
    (∀ m, parse_content env content = .error m →
      (save_config env dir fs name content old_name).1.1 = false ∧
      (save_config env dir fs name content old_name).2 = fs) ∧
    (∀ k, (hk : k < (splitOnNl (pyStrip content).data).length) →
      (∀ j, (hj : j < k) →
        lineOk env ((splitOnNl (pyStrip content).data).get ⟨j, hj.trans hk⟩)) →
      ¬ pyStripList ((splitOnNl (pyStrip content).data).get ⟨k, hk⟩) = [] →
      ((matchRuleLine (pyStripList ((splitOnNl (pyStrip content).data).get ⟨k, hk⟩)) = none →
        parse_content env content =
          .error (.formatErrorMsg (k + 1)
            ⟨pyStripList ((splitOnNl (pyStrip content).data).get ⟨k, hk⟩)⟩)) ∧
       (∀ p f,
        matchRuleLine (pyStripList ((splitOnNl (pyStrip content).data).get ⟨k, hk⟩)) =
          some (p, f) →
        env.compileOk p = false →
        parse_content env content =
          .error (.regexSyntaxError (k + 1) (env.compileErr p))))) := by
  refine ⟨?_, ?_, ?_⟩
  · intro hn
    simp [save_config, hn]
  · intro m hm
    by_cases hn : pyStrip name = ""
    · simp [save_config, hn]
    · simp [save_config, hn, hm]
  · intro k hk hbefore hne
    have hcne : ¬ pyStrip content = "" := by
      intro hc
      apply hne
      have hdata : splitOnNl (pyStrip content).data = [[]] := by rw [hc]; rfl
      have hgen : ∀ (L : List (List Char)) (hL : L = [[]]) (hk2 : k < L.length),
          pyStripList (L.get ⟨k, hk2⟩) = [] := by
        intro L hL hk2
        subst hL
        have hk0 : k = 0 := by simpa using hk2
        subst hk0
        rfl
      exact hgen _ hdata hk
    constructor
    · intro hmatch
      rw [show parse_content env content =
            parseLinesAux env (splitOnNl (pyStrip content).data) 1 [] by
        simp [parse_content, hcne]]
      rw [show k + 1 = 1 + k by omega]
      exact parseAux_format_error env _ k 1 [] hk hbefore hne hmatch
    · intro p f hmatch hcomp
      rw [show parse_content env content =
            parseLinesAux env (splitOnNl (pyStrip content).data) 1 [] by
        simp [parse_content, hcne]]
      rw [show k + 1 = 1 + k by omega]
      exact parseAux_regex_error env _ k 1 [] hk p f hbefore hmatch hcomp

/-- Witness for C2: the empty name fails; a content whose second line holds
the invalid pattern `[` makes `save_config` fail with the row-2 regex
error, writing nothing. -/
theorem c2_witness :
    save_config envC2 "d" [] " " "\"a\": \"b\"" none = ((false, some .configNameEmpty), []) ∧
    parse_content envC2 "\"a\": \"b\"\n\"[\": \"c\"" =
      .error (.regexSyntaxError 2 "unterminated character set") ∧
    (save_config envC2 "d" [] "cfg" "\"a\": \"b\"\n\"[\": \"c\"" none).1.1 = false ∧
    (save_config envC2 "d" [] "cfg" "\"a\": \"b\"\n\"[\": \"c\"" none).2 = [] := by
  have h := c2_save_validation envC2 "d" [] "cfg" "\"a\": \"b\"\n\"[\": \"c\"" none
  have h0 := c2_save_validation envC2 "d" [] " " "\"a\": \"b\"" none
  have hparse : parse_content envC2 "\"a\": \"b\"\n\"[\": \"c\"" =
      .error (.regexSyntaxError 2 "unterminated character set") := by
    have hline0 : matchRuleLine (pyStripList ("\"a\": \"b\"".data)) = some ("a", "b") := by
      decide
    have hcmp0 : envC2.compileOk "a" = true := by decide
    have hline := (h.2.2 1 (by decide)
      (fun j hj => by
        have hj0 : j = 0 := Nat.lt_one_iff.mp hj
        subst hj0
        exact Or.inr ⟨"a", "b", hline0, hcmp0⟩)
      (by
        intro hcon
        exact absurd hcon
          (by decide : ¬ pyStripList ("\"[\": \"c\"".data) = []))).2 "[" "c"
      (by
        exact (by decide : matchRuleLine (pyStripList ("\"[\": \"c\"".data)) =
          some ("[", "c")))
      (by decide)
    exact hline
  refine ⟨h0.1 (by decide), hparse, ?_, ?_⟩
  · exact (h.2.1 _ hparse).1
  · exact (h.2.1 _ hparse).2

/-! ## C9: what the write paths guarantee about persisted rules -/

theorem fsRead_map_set (p : String) (v : JVal) :
    ∀ fs : FS, fsExists fs p = true →
      fsRead (List.map (fun e => if e.1 = p then (p, v) else e) fs) p = some v := by
  intro fs
  induction fs with
  | nil => intro h; exact absurd h (by simp [fsExists])
  | cons e fs ih =>
    intro h
    by_cases he : e.1 = p
    · simp [fsRead, he]
    · have hrest : fsExists fs p = true := by
        have h2 : (decide (e.1 = p) || List.any fs (fun x => decide (x.1 = p))) = true := h
        rw [decide_eq_false he, Bool.false_or] at h2
        exact h2
      have hr := ih hrest
      simp only [List.map_cons, if_neg he]
      show (List.find? (fun x => x.1 = p)
        (e :: List.map (fun e => if e.1 = p then (p, v) else e) fs)).map (fun x => x.2) = some v
      rw [List.find?_cons_of_neg _ (by simpa using he)]
      exact hr

theorem fsRead_append_right (p : String) (v : JVal) :
    ∀ fs : FS, fsExists fs p = false →
      fsRead (fs ++ [(p, v)]) p = some v := by
  intro fs
  induction fs with
  | nil => intro h; simp [fsRead]
  | cons e fs ih =>
    intro h
    have h2 : (decide (e.1 = p) || List.any fs (fun x => decide (x.1 = p))) = false := h
    have he : ¬ e.1 = p := by
      intro hcon
      rw [decide_eq_true hcon] at h2
      simp at h2
    have hrest : fsExists fs p = false := by
      rw [decide_eq_false he, Bool.false_or] at h2
      exact h2
    have hr := ih hrest
    simp only [List.cons_append]
    show (List.find? (fun x => x.1 = p) (e :: (fs ++ [(p, v)]))).map (fun x => x.2) = some v
    rw [List.find?_cons_of_neg _ (by simpa using he)]
    exact hr

theorem fsRead_fsWrite_self (fs : FS) (p : String) (v : JVal) :
    fsRead (fsWrite fs p v) p = some v := by
  unfold fsWrite
  by_cases h : fsExists fs p
  · rw [if_pos h]
    exact fsRead_map_set p v fs h
  · rw [if_neg h]
    exact fsRead_append_right p v fs (by simpa using h)

theorem matchTail_some (cs g2 : List Char) (h : matchTail cs = some g2) :
    ¬ g2 = [] ∧ g2.all pyDotChar = true := by
  unfold matchTail at h
  split at h
  · split at h
    · split at h
      · split at h
        · rename_i hcond
          injection h with h2
          subst h2
          refine ⟨by simpa using hcond.1, ?_⟩
          simpa using hcond.2
        · exact Option.noConfusion h
      · exact Option.noConfusion h
    · exact Option.noConfusion h
  · exact Option.noConfusion h

theorem pickG1_g2 : ∀ (cs g1 g2 : List Char), pickG1 cs = some (g1, g2) →
    ¬ g2 = [] ∧ g2.all pyDotChar = true := by
  intro cs
  induction cs with
  | nil => intro g1 g2 h; exact Option.noConfusion h
  | cons c cs ih =>
    intro g1 g2 h
    unfold pickG1 at h
    split at h
    · rename_i r heq
      have hr : r = (g1, g2) := Option.some.inj h
      subst hr
      by_cases hd : pyDotChar c
      · rw [if_pos hd] at heq
        rcases Option.map_eq_some'.mp heq with ⟨⟨a, b⟩, hab, hconv⟩
        have hb : b = g2 := congrArg Prod.snd hconv
        rw [← hb]
        exact ih a b hab
      · rw [if_neg hd] at heq
        exact Option.noConfusion heq
    · by_cases hq : c = '"'
      · rw [if_pos hq] at h
        rcases Option.map_eq_some'.mp h with ⟨g2', hmt, hconv⟩
        have hb : g2' = g2 := congrArg Prod.snd hconv
        rw [← hb]
        exact matchTail_some cs g2' hmt
      · rw [if_neg hq] at h
        exact Option.noConfusion h

theorem mk_eq_empty_iff (cs : List Char) : (⟨cs⟩ : String) = "" ↔ cs = [] := by
  constructor
  · intro h
    have := congrArg String.data h
    simpa using this
  · intro h
    rw [h]

theorem matchRuleLine_some (l : List Char) (p f : String)
    (h : matchRuleLine l = some (p, f)) : ¬ p = "" ∧ ¬ f = "" := by
  unfold matchRuleLine at h
  split at h
  · rename_i body
    rcases hp : pickG1 body with _ | ⟨g1, g2⟩
    · rw [hp] at h; exact Option.noConfusion h
    · rw [hp] at h
      have h2 : (if g1 = [] then none
          else some ((⟨g1⟩ : String), (⟨g2⟩ : String))) = some (p, f) := h
      by_cases hg : g1 = []
      · rw [if_pos hg] at h2; exact Option.noConfusion h2
      · rw [if_neg hg] at h2
        have h3 := Option.some.inj h2
        have hp2 : p = ⟨g1⟩ := (congrArg Prod.fst h3).symm
        have hf2 : f = ⟨g2⟩ := (congrArg Prod.snd h3).symm
        refine ⟨?_, ?_⟩
        · rw [hp2, mk_eq_empty_iff]; exact hg
        · rw [hf2, mk_eq_empty_iff]
          exact (pickG1_g2 body g1 g2 hp).1
  · exact Option.noConfusion h

theorem parseAux_ok_good (env : Env) :
    ∀ (ls : List (List Char)) (n : Nat) (acc rules : List Rule),
      parseLinesAux env ls n acc = .ok rules →
      (∀ r ∈ acc, ¬ r.pattern = "" ∧ ¬ r.style_file = "" ∧ env.compileOk r.pattern = true) →
      ∀ r ∈ rules, ¬ r.pattern = "" ∧ ¬ r.style_file = "" ∧ env.compileOk r.pattern = true := by
  intro ls
  induction ls with
  | nil =>
    intro n acc rules h hacc r hr
    simp only [parseLinesAux] at h
    injection h with h2
    rw [← h2] at hr
    exact hacc r (List.mem_reverse.mp hr)
  | cons l ls ih =>
    intro n acc rules h hacc r hr
    simp only [parseLinesAux] at h
    by_cases hb : pyStripList l = []
    · rw [if_pos hb] at h
      exact ih (n + 1) acc rules h hacc r hr
    · rw [if_neg hb] at h
      rcases hm : matchRuleLine (pyStripList l) with _ | ⟨p0, f0⟩
      · rw [hm] at h; exact Except.noConfusion h
      · rw [hm] at h
        have h2 : (if env.compileOk p0 = true then
            parseLinesAux env ls (n + 1) ({ pattern := p0, style_file := f0 } :: acc)
          else Except.error (TrMsg.regexSyntaxError n (env.compileErr p0))) =
            Except.ok rules := h
        by_cases hc : env.compileOk p0 = true
        · rw [if_pos hc] at h2
          refine ih (n + 1) _ rules h2 ?_ r hr
          intro r' hr'
          rcases List.mem_cons.mp hr' with h1 | h1
          · subst h1
            have hms := matchRuleLine_some _ _ _ hm
            exact ⟨hms.1, hms.2, hc⟩
          · exact hacc r' h1
        · rw [if_neg hc] at h2
          exact Except.noConfusion h2

theorem parse_content_good (env : Env) (content : String) (rules : List Rule)
    (h : parse_content env content = .ok rules) :
    ∀ r ∈ rules, ¬ r.pattern = "" ∧ ¬ r.style_file = "" ∧ env.compileOk r.pattern = true := by
  unfold parse_content at h
  split at h
  · injection h with h2
    rw [← h2]
    intro r hr
    exact absurd hr (List.not_mem_nil r)
  · exact parseAux_ok_good env _ 1 [] rules h (fun r hr => absurd hr (List.not_mem_nil r))

theorem checkImportRules_ok (env : Env) :
    ∀ rs : List JVal, checkImportRules env rs = .ok none →
      ∀ r ∈ rs, ∃ fields, r = .jobj fields ∧ (jlookup fields "style_file").isSome = true ∧
        ∃ p, jlookup fields "pattern" = some (.jstr p) ∧ env.compileOk p = true := by
  intro rs
  induction rs with
  | nil => intro _ r hr; exact absurd hr (List.not_mem_nil r)
  | cons r0 rest ih =>
    intro h r hr
    unfold checkImportRules at h
    rcases r0 with _ | b | n0 | s0 | items | fields
    · exact Option.noConfusion (Except.ok.inj h)
    · exact Option.noConfusion (Except.ok.inj h)
    · exact Option.noConfusion (Except.ok.inj h)
    · exact Option.noConfusion (Except.ok.inj h)
    · exact Option.noConfusion (Except.ok.inj h)
    · have h1 : (if (jlookup fields "pattern").isSome ∧ (jlookup fields "style_file").isSome then
          (match jlookup fields "pattern" with
           | some (.jstr p) =>
             if env.compileOk p then checkImportRules env rest
             else Except.ok (some (.trMsg (.regexSyntaxError 0 (env.compileErr p))))
           | _ => Except.error "TypeError")
        else Except.ok (some (.trMsg .invalidConfigFormat))) = Except.ok none := h
      by_cases hkeys : (jlookup fields "pattern").isSome ∧ (jlookup fields "style_file").isSome
      · rw [if_pos hkeys] at h1
        rcases hpat : jlookup fields "pattern" with _ | v
        · rw [hpat] at h1
          exact Except.noConfusion h1
        · rcases v with _ | b1 | n1 | p | items1 | fields1
          · rw [hpat] at h1; exact Except.noConfusion h1
          · rw [hpat] at h1; exact Except.noConfusion h1
          · rw [hpat] at h1; exact Except.noConfusion h1
          · rw [hpat] at h1
            have h2 : (if env.compileOk p = true then checkImportRules env rest
                else Except.ok (some (.trMsg (.regexSyntaxError 0 (env.compileErr p))))) =
                Except.ok none := h1
            by_cases hcomp : env.compileOk p = true
            · rw [if_pos hcomp] at h2
              rcases List.mem_cons.mp hr with hh | hh
              · subst hh
                exact ⟨fields, rfl, hkeys.2, p, hpat, hcomp⟩
              · exact ih h2 r hh
            · rw [if_neg hcomp] at h2
              exact Option.noConfusion (Except.ok.inj h2)
          · rw [hpat] at h1; exact Except.noConfusion h1
          · rw [hpat] at h1; exact Except.noConfusion h1
      · rw [if_neg hkeys] at h1
        exact Option.noConfusion (Except.ok.inj h1)

/-- Inversion of a successful `import_config`: it read a JSON object at
the given path, validated its rule list, and wrote `{"rules": ...}` under
the name derived from the basename. -/
theorem import_config_ok (env : Env) (dir : String) (fs : FS) (ipath : String)
    (ow : Bool) (msg : Option ImportMsg) (nm : String) (fs2 : FS)
    (h : import_config env dir fs ipath ow = .ok ((true, msg, nm), fs2)) :
    nm = stripJsonExt (pyBasename ipath) ∧ msg = none ∧
    ∃ fields rs, fsRead fs ipath = some (.jobj fields) ∧
      (jlookup fields "rules").getD (.jarr []) = .jarr rs ∧
      checkImportRules env rs = .ok none ∧
      fs2 = fsWrite fs (get_config_path dir nm) (.jobj [("rules", .jarr rs)]) := by
  simp only [import_config] at h
  split at h
  · simp at h
  · split at h
    · simp at h
    · rename_i config hread
      rcases config with _ | b | n0 | s0 | items | fields
      · simp at h
      · simp at h
      · simp at h
      · simp at h
      · simp at h
      · have h1 : (if fsExists fs (get_config_path dir (stripJsonExt (pyBasename ipath))) = true ∧
              ¬ ow = true then
            Except.ok ((false, some ImportMsg.existsSentinel, stripJsonExt (pyBasename ipath)), fs)
          else
            match (jlookup fields "rules").getD (JVal.jarr []) with
            | JVal.jarr rs =>
              (match checkImportRules env rs with
               | Except.error e => Except.error e
               | Except.ok (some m) => Except.ok ((false, some m, ""), fs)
               | Except.ok none =>
                 Except.ok ((true, none, stripJsonExt (pyBasename ipath)),
                   fsWrite fs (get_config_path dir (stripJsonExt (pyBasename ipath)))
                     (JVal.jobj [("rules", JVal.jarr rs)])))
            | _ => Except.ok ((false, some (ImportMsg.trMsg TrMsg.invalidConfigFormat), ""), fs)) =
          Except.ok ((true, msg, nm), fs2) := h
        clear h
        split at h1
        · simp at h1
        · split at h1
          · rename_i rs hrs
            split at h1
            · exact Except.noConfusion h1
            · simp at h1
            · have hinj := Except.ok.inj h1
              have hnm : nm = stripJsonExt (pyBasename ipath) := by
                have hc := congrArg (fun x => x.1.2.2) hinj
                simpa using hc.symm
              have hmsg : msg = none := by
                have hc := congrArg (fun x => x.1.2.1) hinj
                simpa using hc.symm
              rename_i hchk
              refine ⟨hnm, hmsg, fields, rs, hread, hrs, hchk, ?_⟩
              have hc := congrArg (fun x => x.2) hinj
              simp only at hc
              rw [← hc, hnm]
          · simp at h1

/-- Counterexample to C9: `import_config` accepts and persists a rule whose
pattern and style-file path are both the empty string (every pattern
compiles in `envAllOk`, matching Python, where `re.compile("")`
succeeds), so a rule with empty fields reaches storage through a write
path of the config store. -/
theorem c9_counterexample :
    (import_config envAllOk "d" [("in.json", c9ImportFile)] "in.json" false) =
      .ok ((true, none, "in"),
        [("in.json", c9ImportFile), ("d/in.json", .jobj [("rules", .jarr [emptyRuleJson])])]) ∧
    fsRead [("in.json", c9ImportFile),
        ("d/in.json", .jobj [("rules", .jarr [emptyRuleJson])])] "d/in.json" =
      some (.jobj [("rules",
        .jarr [.jobj [("pattern", .jstr ""), ("style_file", .jstr "")]])]) := by
  exact ⟨rfl, rfl⟩

/-- C9 amended: rules persisted through `save_config` have non-empty
pattern and style-file strings and a compiling pattern; rules persisted
through `import_config` are objects carrying both fields whose pattern is
a compiling regular expression, but their fields may be empty. -/
theorem c9_persisted_rules_amended (env : Env) :
    (∀ (dir : String) (fs : FS) (name content : String) (old_name : Option String)
      (rules : List Rule), parse_content env content = .ok rules →
      (∀ r ∈ rules, ¬ r.pattern = "" ∧ ¬ r.style_file = "" ∧ env.compileOk r.pattern = true) ∧
      ((save_config env dir fs name content old_name).1.1 = true →
        fsRead (save_config env dir fs name content old_name).2
          (get_config_path dir (pyStrip name)) = some (rulesJson rules))) ∧
    (∀ (dir : String) (fs : FS) (ipath : String) (ow : Bool) (nm : String)
      (msg : Option ImportMsg) (fs2 : FS),
      (import_config env dir fs ipath ow) = .ok ((true, msg, nm), fs2) →
      ∃ rs, fsRead fs2 (get_config_path dir nm) = some (.jobj [("rules", .jarr rs)]) ∧
        ∀ r ∈ rs, ∃ fields, r = .jobj fields ∧ (jlookup fields "style_file").isSome = true ∧
          ∃ p, jlookup fields "pattern" = some (.jstr p) ∧ env.compileOk p = true) := by
  constructor
  · intro dir fs name content old_name rules hparse
    refine ⟨parse_content_good env content rules hparse, ?_⟩
    intro hok
    by_cases hn : pyStrip name = ""
    · simp [save_config, hn] at hok
    · simp only [save_config, if_neg hn, hparse]
      exact fsRead_fsWrite_self _ _ _
  · intro dir fs ipath ow nm msg fs2 h
    obtain ⟨hnm, hmsg, fields, rs, hread, hrs, hchk, hfs2⟩ :=
      (import_config_ok env dir fs ipath ow msg nm fs2 h)
    refine ⟨rs, ?_, checkImportRules_ok env rs hchk⟩
    rw [hfs2]
    exact fsRead_fsWrite_self _ _ _

/-- Witness for C9 (amended): a concrete save persists the parsed non-empty
rule, and a concrete import persists a rule object with a compiling
string pattern. -/
theorem c9_witness :
    (¬ ("a" : String) = "" ∧ ¬ ("b" : String) = "" ∧ envAllOk.compileOk "a" = true) ∧
    fsRead (save_config envAllOk "d" [] "cfg" "\"a\": \"b\"" none).2
      (get_config_path "d" (pyStrip "cfg")) = some (rulesJson [⟨"a", "b"⟩]) := by
  have h := (c9_persisted_rules_amended envAllOk).1 "d" [] "cfg" "\"a\": \"b\"" none
    [⟨"a", "b"⟩] rfl
  exact ⟨h.1 ⟨"a", "b"⟩ (by simp), h.2 (by decide)⟩

/-! ## C6: export then import round-trips the stored rules -/

theorem load_config_stored (dir name : String) (fs : FS) (rules : List Rule)
    (hstored : fsRead fs (get_config_path dir name) = some (rulesJson rules)) :
    load_config dir fs name =
      .ok (some (.jobj [("rules", .jarr (List.map ruleToJson rules)),
        ("name", .jstr name)])) := by
  unfold load_config
  rw [hstored]
  rfl

theorem export_config_stored (dir name epath : String) (fs : FS) (rules : List Rule)
    (hstored : fsRead fs (get_config_path dir name) = some (rulesJson rules)) :
    export_config dir fs name epath = .ok ((true, none), fsWrite fs epath (rulesJson rules)) := by
  unfold export_config
  rw [load_config_stored dir name fs rules hstored]
  rfl

theorem checkImportRules_map_ok (env : Env) :
    ∀ rules : List Rule, (∀ r ∈ rules, env.compileOk r.pattern = true) →
      checkImportRules env (List.map ruleToJson rules) = .ok none := by
  intro rules
  induction rules with
  | nil => intro _; rfl
  | cons r rest ih =>
    intro h
    have hr : env.compileOk r.pattern = true := h r (List.mem_cons_self r rest)
    have hrest := ih (fun r' hr' => h r' (List.mem_cons_of_mem r hr'))
    show (if env.compileOk r.pattern = true then checkImportRules env (List.map ruleToJson rest)
        else Except.ok (some (.trMsg (.regexSyntaxError 0 (env.compileErr r.pattern))))) =
      Except.ok none
    rw [if_pos hr]
    exact hrest

/-- C6: a rule-set stored in the application's format (patterns compiling,
as every write path guarantees) exported to any path whose basename has a
non-empty stem and re-imported (with overwrite) ends up stored under the
derived name with the rule sequence equal to the original, element for
element and in order. -/
theorem c6_export_import_roundtrip (env : Env) (dir : String) (fs : FS)
    (name epath : String) (rules : List Rule)
    (hstored : fsRead fs (get_config_path dir name) = some (rulesJson rules))
    (hcompile : ∀ r ∈ rules, env.compileOk r.pattern = true)
    (hstem : ¬ stripJsonExt (pyBasename epath) = "") :
    export_config dir fs name epath = .ok ((true, none), fsWrite fs epath (rulesJson rules)) ∧
    (import_config env dir (fsWrite fs epath (rulesJson rules)) epath true) =
      .ok ((true, none, stripJsonExt (pyBasename epath)),
        fsWrite (fsWrite fs epath (rulesJson rules))
          (get_config_path dir (stripJsonExt (pyBasename epath))) (rulesJson rules)) ∧
    fsRead (fsWrite (fsWrite fs epath (rulesJson rules))
        (get_config_path dir (stripJsonExt (pyBasename epath))) (rulesJson rules))
      (get_config_path dir (stripJsonExt (pyBasename epath))) = some (rulesJson rules) := by
  refine ⟨export_config_stored dir name epath fs rules hstored, ?_, fsRead_fsWrite_self _ _ _⟩
  have hread : fsRead (fsWrite fs epath (rulesJson rules)) epath = some (rulesJson rules) :=
    fsRead_fsWrite_self _ _ _
  simp only [import_config]
  rw [if_neg hstem, hread]
  simp only [rulesJson]
  rw [if_neg (show ¬ (fsExists (fsWrite fs epath
      (JVal.jobj [("rules", JVal.jarr (List.map ruleToJson rules))]))
      (get_config_path dir (stripJsonExt (pyBasename epath))) = true ∧ ¬ True) by simp)]
  rw [show (jlookup [("rules", JVal.jarr (List.map ruleToJson rules))] "rules").getD
      (JVal.jarr []) = JVal.jarr (List.map ruleToJson rules) from rfl]
  simp only []
  rw [checkImportRules_map_ok env rules hcompile]

/-- Witness for C6: a concrete one-rule config exported to `out/c2.json` and
re-imported as `c2`. -/
theorem c6_witness :
    export_config "d" [("d/c.json", rulesJson [⟨"p", "f"⟩])] "c" "out/c2.json" =
      .ok ((true, none),
        fsWrite [("d/c.json", rulesJson [⟨"p", "f"⟩])] "out/c2.json" (rulesJson [⟨"p", "f"⟩])) ∧
    (import_config envAllOk "d"
        (fsWrite [("d/c.json", rulesJson [⟨"p", "f"⟩])] "out/c2.json" (rulesJson [⟨"p", "f"⟩]))
        "out/c2.json" true) =
      .ok ((true, none, stripJsonExt (pyBasename "out/c2.json")),
        fsWrite (fsWrite [("d/c.json", rulesJson [⟨"p", "f"⟩])] "out/c2.json"
            (rulesJson [⟨"p", "f"⟩]))
          (get_config_path "d" (stripJsonExt (pyBasename "out/c2.json")))
          (rulesJson [⟨"p", "f"⟩])) ∧
    fsRead (fsWrite (fsWrite [("d/c.json", rulesJson [⟨"p", "f"⟩])] "out/c2.json"
          (rulesJson [⟨"p", "f"⟩]))
        (get_config_path "d" (stripJsonExt (pyBasename "out/c2.json")))
        (rulesJson [⟨"p", "f"⟩]))
      (get_config_path "d" (stripJsonExt (pyBasename "out/c2.json"))) =
      some (rulesJson [⟨"p", "f"⟩]) := by
  exact c6_export_import_roundtrip envAllOk "d" [("d/c.json", rulesJson [⟨"p", "f"⟩])]
    "c" "out/c2.json" [⟨"p", "f"⟩] rfl
    (fun r hr => rfl) (by decide)

/-! ## C7: load / render / save / reload -/

/-- Counterexample to C7: the stored rule `("p", "a\": \"b")` — reachable
through `import_config`, and satisfying even the data-model invariant of
non-empty fields and a compiling pattern — renders to the line
`"p": "a": "b"`, which the save parser's greedy grammar re-reads as the
different rule `("p\": \"a", "b")`; `save_config` succeeds and the
reloaded rule differs from the original. -/
theorem c7_counterexample :
    load_config "d" [("d/c.json", rulesJson [⟨"p", "a\": \"b"⟩])] "c" =
      .ok (some (.jobj [("rules", .jarr [ruleToJson ⟨"p", "a\": \"b"⟩]),
        ("name", .jstr "c")])) ∧
    get_content_text (.jobj [("rules", .jarr [ruleToJson ⟨"p", "a\": \"b"⟩]),
        ("name", .jstr "c")]) = some "\"p\": \"a\": \"b\"" ∧
    save_config envAllOk "d" [("d/c.json", rulesJson [⟨"p", "a\": \"b"⟩])] "c"
        "\"p\": \"a\": \"b\"" none =
      ((true, none), [("d/c.json", rulesJson [⟨"p\": \"a", "b"⟩])]) ∧
    ¬ (⟨"p\": \"a", "b"⟩ : Rule) = ⟨"p", "a\": \"b"⟩ := by
  exact ⟨rfl, rfl, rfl, by decide⟩

theorem data_append (s t : String) : (s ++ t).data = s.data ++ t.data := rfl

theorem ruleLine_data (r : Rule) :
    (ruleLine r).data =
      '"' :: (r.pattern.data ++ '"' :: ':' :: ' ' :: '"' :: r.style_file.data ++ ['"']) := by
  show ("\"" ++ r.pattern ++ "\": \"" ++ r.style_file ++ "\"").data = _
  rw [data_append, data_append, data_append, data_append]
  show ['"'] ++ r.pattern.data ++ ['"', ':', ' ', '"'] ++ r.style_file.data ++ ['"'] = _
  simp

theorem data_eq_nil_iff (s : String) : s.data = [] ↔ s = "" := by
  cases s
  exact (mk_eq_empty_iff _).symm

theorem matchTail_quoteFree (F : List Char) (hq : ∀ c ∈ F, ¬ c = '"') :
    matchTail (F ++ ['"']) = none := by
  unfold matchTail
  rw [List.dropWhile_append]
  by_cases hFe : (List.dropWhile isPySpace F).isEmpty
  · rw [if_pos hFe]
    rfl
  · rw [if_neg hFe]
    rcases hdw : List.dropWhile isPySpace F with _ | ⟨d, ds⟩
    · rw [hdw] at hFe; simp at hFe
    · have hdF : d ∈ F := (List.dropWhile_sublist isPySpace).mem (hdw ▸ List.mem_cons_self d ds)
      have hdsF : ∀ c ∈ ds, c ∈ F := fun c hc =>
        (List.dropWhile_sublist isPySpace).mem (hdw ▸ List.mem_cons_of_mem d hc)
      by_cases hcolon : d = ':'
      · subst hcolon
        show (match (':' :: ds) ++ ['"'] with
          | ':' :: cs2 =>
            (match cs2.dropWhile isPySpace with
             | '"' :: rest =>
               (match rest.reverse with
                | '"' :: g2rev =>
                  if g2rev ≠ [] ∧ g2rev.all pyDotChar then some g2rev.reverse else none
                | _ => none)
             | _ => none)
          | _ => none) = none
        simp only [List.cons_append]
        rw [List.dropWhile_append]
        by_cases hds : (List.dropWhile isPySpace ds).isEmpty
        · rw [if_pos hds]
          rfl
        · rw [if_neg hds]
          rcases hde : List.dropWhile isPySpace ds with _ | ⟨e, es⟩
          · rw [hde] at hds; simp at hds
          · have heF : e ∈ F := hdsF e
              ((List.dropWhile_sublist isPySpace).mem (hde ▸ List.mem_cons_self e es))
            have heq : ¬ e = '"' := hq e heF
            simp only [List.cons_append]
            split
            · rename_i rest hcontra
              exact absurd (List.head_eq_of_cons_eq hcontra.symm).symm heq
            · rfl
      · have hdq : ¬ d = '"' := hq d hdF
        split
        · rename_i cs2 hcontra
          exact absurd (List.head_eq_of_cons_eq hcontra.symm).symm hcolon
        · rfl

theorem pickG1_quoteFree (F : List Char) (hq : ∀ c ∈ F, ¬ c = '"') :
    pickG1 (F ++ ['"']) = none := by
  induction F with
  | nil => rfl
  | cons c F ih =>
    have hc : ¬ c = '"' := hq c (List.mem_cons_self c F)
    have ihq := ih (fun x hx => hq x (List.mem_cons_of_mem c hx))
    show (match (if pyDotChar c then
        (pickG1 (F ++ ['"'])).map (fun p => (c :: p.1, p.2)) else none) with
      | some r => some r
      | none => if c = '"' then (matchTail (F ++ ['"'])).map (fun g2 => (([] : List Char), g2))
                else none) = none
    rw [ihq]
    by_cases hd : pyDotChar c
    · rw [if_pos hd]
      show (if c = '"' then
          (matchTail (F ++ ['"'])).map (fun g2 => (([] : List Char), g2)) else none) = none
      rw [if_neg hc]
    · rw [if_neg hd]
      show (if c = '"' then
          (matchTail (F ++ ['"'])).map (fun g2 => (([] : List Char), g2)) else none) = none
      rw [if_neg hc]

theorem pickG1_quoteHead (F : List Char) (hq : ∀ c ∈ F, ¬ c = '"') :
    pickG1 ('"' :: F ++ ['"']) = none := by
  show (match (if pyDotChar '"' then
      (pickG1 (F ++ ['"'])).map (fun p => ('"' :: p.1, p.2)) else none) with
    | some r => some r
    | none => if '"' = '"' then (matchTail (F ++ ['"'])).map (fun g2 => (([] : List Char), g2))
              else none) = none
  rw [if_pos (by decide : pyDotChar '"' = true), pickG1_quoteFree F hq]
  show (if '"' = '"' then (matchTail (F ++ ['"'])).map (fun g2 => (([] : List Char), g2))
      else none) = none
  rw [if_pos rfl, matchTail_quoteFree F hq]
  rfl

theorem pickG1_afterSep (F : List Char) (hq : ∀ c ∈ F, ¬ c = '"') :
    pickG1 (':' :: ' ' :: '"' :: F ++ ['"']) = none := by
  have h3 := pickG1_quoteHead F hq
  have h2 : pickG1 (' ' :: '"' :: F ++ ['"']) = none := by
    show (match (if pyDotChar ' ' then
        (pickG1 ('"' :: F ++ ['"'])).map (fun p => (' ' :: p.1, p.2)) else none) with
      | some r => some r
      | none => if ' ' = '"' then
          (matchTail ('"' :: F ++ ['"'])).map (fun g2 => (([] : List Char), g2)) else none) = none
    rw [if_pos (by decide : pyDotChar ' ' = true), h3]
    show (if ' ' = '"' then
        (matchTail ('"' :: F ++ ['"'])).map (fun g2 => (([] : List Char), g2)) else none) = none
    rw [if_neg (by decide : ¬ ' ' = '"')]
  show (match (if pyDotChar ':' then
      (pickG1 (' ' :: '"' :: F ++ ['"'])).map (fun p => (':' :: p.1, p.2)) else none) with
    | some r => some r
    | none => if ':' = '"' then
        (matchTail (' ' :: '"' :: F ++ ['"'])).map (fun g2 => (([] : List Char), g2))
        else none) = none
  rw [if_pos (by decide : pyDotChar ':' = true), h2]
  show (if ':' = '"' then
      (matchTail (' ' :: '"' :: F ++ ['"'])).map (fun g2 => (([] : List Char), g2))
      else none) = none
  rw [if_neg (by decide : ¬ ':' = '"')]

theorem matchTail_line (F : List Char) (hne : ¬ F = [])
    (hdot : ∀ c ∈ F, pyDotChar c = true) :
    matchTail (':' :: ' ' :: '"' :: F ++ ['"']) = some F := by
  unfold matchTail
  rw [show List.dropWhile isPySpace (':' :: ' ' :: '"' :: F ++ ['"']) =
      ':' :: ' ' :: '"' :: F ++ ['"'] from
    List.dropWhile_cons_of_neg (by decide)]
  show (match List.dropWhile isPySpace (' ' :: '"' :: F ++ ['"']) with
    | '"' :: rest =>
      (match rest.reverse with
       | '"' :: g2rev =>
         if g2rev ≠ [] ∧ g2rev.all pyDotChar then some g2rev.reverse else none
       | _ => none)
    | _ => none) = some F
  rw [show List.dropWhile isPySpace (' ' :: '"' :: F ++ ['"']) = '"' :: F ++ ['"'] from
    (List.dropWhile_cons_of_pos (by decide)).trans
      (List.dropWhile_cons_of_neg (by decide))]
  show (match (F ++ ['"']).reverse with
    | '"' :: g2rev =>
      if g2rev ≠ [] ∧ g2rev.all pyDotChar then some g2rev.reverse else none
    | _ => none) = some F
  rw [show (F ++ ['"']).reverse = '"' :: F.reverse from by simp]
  show (if F.reverse ≠ [] ∧ F.reverse.all pyDotChar then some F.reverse.reverse else none) =
    some F
  rw [if_pos ⟨by simpa using hne, by
    rw [List.all_reverse]
    exact List.all_eq_true.mpr hdot⟩]
  rw [List.reverse_reverse]

theorem pickG1_line (F : List Char) (hFne : ¬ F = [])
    (hFd : ∀ c ∈ F, pyDotChar c = true) (hFq : ∀ c ∈ F, ¬ c = '"') :
    ∀ P : List Char, (∀ c ∈ P, pyDotChar c = true) →
      pickG1 (P ++ '"' :: ':' :: ' ' :: '"' :: F ++ ['"']) = some (P, F) := by
  intro P
  induction P with
  | nil =>
    intro _
    show (match (if pyDotChar '"' then
        (pickG1 (':' :: ' ' :: '"' :: F ++ ['"'])).map (fun p => ('"' :: p.1, p.2))
        else none) with
      | some r => some r
      | none => if '"' = '"' then
          (matchTail (':' :: ' ' :: '"' :: F ++ ['"'])).map (fun g2 => (([] : List Char), g2))
          else none) = some ([], F)
    rw [if_pos (by decide : pyDotChar '"' = true), pickG1_afterSep F hFq]
    show (if '"' = '"' then
        (matchTail (':' :: ' ' :: '"' :: F ++ ['"'])).map (fun g2 => (([] : List Char), g2))
        else none) = some ([], F)
    rw [if_pos rfl, matchTail_line F hFne hFd]
    rfl
  | cons c P ih =>
    intro hPd
    have hcd : pyDotChar c = true := hPd c (List.mem_cons_self c P)
    have ihv := ih (fun x hx => hPd x (List.mem_cons_of_mem c hx))
    show (match (if pyDotChar c then
        (pickG1 (P ++ '"' :: ':' :: ' ' :: '"' :: F ++ ['"'])).map
          (fun p => (c :: p.1, p.2))
        else none) with
      | some r => some r
      | none => if c = '"' then
          (matchTail (P ++ '"' :: ':' :: ' ' :: '"' :: F ++ ['"'])).map
            (fun g2 => (([] : List Char), g2))
          else none) = some (c :: P, F)
    rw [if_pos hcd, ihv]
    rfl

theorem matchRuleLine_ruleLine (r : Rule)
    (hp : ¬ r.pattern = "") (hpd : ∀ c ∈ r.pattern.data, pyDotChar c = true)
    (hf : ¬ r.style_file = "") (hfd : ∀ c ∈ r.style_file.data, pyDotChar c = true)
    (hfq : ∀ c ∈ r.style_file.data, ¬ c = '"') :
    matchRuleLine (ruleLine r).data = some (r.pattern, r.style_file) := by
  rw [ruleLine_data]
  show (match pickG1 (r.pattern.data ++ '"' :: ':' :: ' ' :: '"' ::
      r.style_file.data ++ ['"']) with
    | some (g1, g2) => if g1 = [] then none else some ((⟨g1⟩ : String), (⟨g2⟩ : String))
    | none => none) = some (r.pattern, r.style_file)
  have hfne : ¬ r.style_file.data = [] := fun h => hf ((data_eq_nil_iff _).mp h)
  have hpne : ¬ r.pattern.data = [] := fun h => hp ((data_eq_nil_iff _).mp h)
  rw [pickG1_line r.style_file.data hfne hfd hfq r.pattern.data hpd]
  show (if r.pattern.data = [] then none
    else some ((⟨r.pattern.data⟩ : String), (⟨r.style_file.data⟩ : String))) =
    some (r.pattern, r.style_file)
  rw [if_neg hpne]

theorem splitOnNl_no_nl (cs : List Char) (h : ∀ c ∈ cs, ¬ c = '\n') :
    splitOnNl cs = [cs] := by
  induction cs with
  | nil => rfl
  | cons c cs ih =>
    have hc : ¬ c = '\n' := h c (List.mem_cons_self c cs)
    have ihv := ih (fun x hx => h x (List.mem_cons_of_mem c hx))
    show (if c = '\n' then [] :: splitOnNl cs
      else match splitOnNl cs with
        | [] => [[c]]
        | l :: ls => (c :: l) :: ls) = [c :: cs]
    rw [if_neg hc, ihv]

theorem splitOnNl_append_nl (xs ys : List Char) (h : ∀ c ∈ xs, ¬ c = '\n') :
    splitOnNl (xs ++ '\n' :: ys) = xs :: splitOnNl ys := by
  induction xs with
  | nil =>
    show (if '\n' = '\n' then [] :: splitOnNl ys
      else match splitOnNl ys with
        | [] => [['\n']]
        | l :: ls => ('\n' :: l) :: ls) = [] :: splitOnNl ys
    rw [if_pos rfl]
  | cons x xs ih =>
    have hx : ¬ x = '\n' := h x (List.mem_cons_self x xs)
    have ihv := ih (fun c hc => h c (List.mem_cons_of_mem x hc))
    show (if x = '\n' then [] :: splitOnNl (xs ++ '\n' :: ys)
      else match splitOnNl (xs ++ '\n' :: ys) with
        | [] => [[x]]
        | l :: ls => (x :: l) :: ls) = (x :: xs) :: splitOnNl ys
    rw [if_neg hx, ihv]

theorem data_joinNl_cons (s : String) (r0 : String) (rest : List String) :
    (joinNl (s :: r0 :: rest)).data = s.data ++ '\n' :: (joinNl (r0 :: rest)).data := by
  show (s ++ "\n" ++ joinNl (r0 :: rest)).data = _
  rw [data_append, data_append]
  simp

theorem splitOnNl_joinNl (lines : List String)
    (h : ∀ l ∈ lines, ∀ c ∈ String.data l, ¬ c = '\n') (hne : ¬ lines = []) :
    splitOnNl (joinNl lines).data = List.map String.data lines := by
  induction lines with
  | nil => exact absurd rfl hne
  | cons s rest ih =>
    rcases rest with _ | ⟨r0, rs⟩
    · show splitOnNl s.data = [s.data]
      exact splitOnNl_no_nl s.data (h s (List.mem_cons_self s []))
    · rw [data_joinNl_cons]
      rw [splitOnNl_append_nl s.data _ (h s (List.mem_cons_self s _))]
      rw [ih (fun l hl => h l (List.mem_cons_of_mem s hl)) (by simp)]
      rfl

theorem pyStripList_quoted (mid : List Char) :
    pyStripList ('"' :: mid ++ ['"']) = '"' :: mid ++ ['"'] := by
  have hq : ¬ isPySpace '"' = true := by decide
  show (((('"' :: mid ++ ['"']).dropWhile isPySpace).reverse.dropWhile isPySpace).reverse = _)
  rw [show ('"' :: mid ++ ['"']).dropWhile isPySpace = '"' :: mid ++ ['"'] from
    List.dropWhile_cons_of_neg hq]
  rw [show ('"' :: mid ++ ['"']).reverse = '"' :: (mid.reverse ++ ['"']) from by simp]
  rw [List.dropWhile_cons_of_neg hq]
  rw [show ('"' :: (mid.reverse ++ ['"'])).reverse = '"' :: mid ++ ['"'] from by simp]

theorem line_form (r : Rule) :
    (ruleLine r).data =
      '"' :: (r.pattern.data ++ '"' :: ':' :: ' ' :: '"' :: r.style_file.data) ++ ['"'] := by
  rw [ruleLine_data]
  simp

theorem joinNl_form (rules : List Rule) :
    ∀ r0, ∃ mid, (joinNl (List.map ruleLine (r0 :: rules))).data = '"' :: mid ++ ['"'] := by
  induction rules with
  | nil =>
    intro r0
    refine ⟨r0.pattern.data ++ '"' :: ':' :: ' ' :: '"' :: r0.style_file.data, ?_⟩
    show (ruleLine r0).data = _
    rw [line_form]
  | cons r1 rest ih =>
    intro r0
    obtain ⟨mid2, hmid2⟩ := ih r1
    refine ⟨(r0.pattern.data ++ '"' :: ':' :: ' ' :: '"' :: r0.style_file.data) ++
      '"' :: '\n' :: '"' :: mid2, ?_⟩
    show (joinNl (ruleLine r0 :: ruleLine r1 :: List.map ruleLine rest)).data = _
    rw [data_joinNl_cons, line_form]
    rw [show (joinNl (ruleLine r1 :: List.map ruleLine rest)).data =
      (joinNl (List.map ruleLine (r1 :: rest))).data from rfl, hmid2]
    simp

theorem line_no_nl (env : Env) (r : Rule) (hgood : GoodRule env r) :
    ∀ c ∈ (ruleLine r).data, ¬ c = '\n' := by
  simp only [line_form]
  refine List.forall_mem_append.mpr ⟨List.forall_mem_cons.mpr ⟨by decide, ?_⟩, by decide⟩
  refine List.forall_mem_append.mpr ⟨?_, ?_⟩
  · intro c hc
    have hd := hgood.2.2.1 c hc
    simpa [pyDotChar] using hd
  · refine List.forall_mem_cons.mpr ⟨by decide, List.forall_mem_cons.mpr ⟨by decide,
      List.forall_mem_cons.mpr ⟨by decide, List.forall_mem_cons.mpr ⟨by decide, ?_⟩⟩⟩⟩
    intro c hc
    have hd := (hgood.2.2.2.1 c hc).1
    simpa [pyDotChar] using hd

theorem parseAux_lines (env : Env) :
    ∀ (rules : List Rule), (∀ r ∈ rules, GoodRule env r) →
      ∀ (n : Nat) (acc : List Rule),
        parseLinesAux env (List.map (fun r => (ruleLine r).data) rules) n acc =
          .ok (acc.reverse ++ rules) := by
  intro rules
  induction rules with
  | nil => intro _ n acc; simp [parseLinesAux]
  | cons r rest ih =>
    intro hgood n acc
    have hg : GoodRule env r := hgood r (List.mem_cons_self r rest)
    have hstrip : pyStripList (ruleLine r).data = (ruleLine r).data := by
      rw [line_form]
      exact pyStripList_quoted _
    have hne : ¬ (ruleLine r).data = [] := by
      rw [line_form]
      simp
    have hm : matchRuleLine (ruleLine r).data = some (r.pattern, r.style_file) :=
      matchRuleLine_ruleLine r hg.1 hg.2.2.1 hg.2.1
        (fun c hc => (hg.2.2.2.1 c hc).1) (fun c hc => (hg.2.2.2.1 c hc).2)
    show (if pyStripList (ruleLine r).data = [] then
        parseLinesAux env (List.map (fun r => (ruleLine r).data) rest) (n + 1) acc
      else match matchRuleLine (pyStripList (ruleLine r).data) with
        | none => .error (.formatErrorMsg n ⟨pyStripList (ruleLine r).data⟩)
        | some (p, f) =>
          if env.compileOk p then
            parseLinesAux env (List.map (fun r => (ruleLine r).data) rest) (n + 1)
              ({ pattern := p, style_file := f } :: acc)
          else .error (.regexSyntaxError n (env.compileErr p))) =
      Except.ok (acc.reverse ++ r :: rest)
    rw [hstrip, if_neg hne, hm]
    show (if env.compileOk r.pattern then
        parseLinesAux env (List.map (fun r => (ruleLine r).data) rest) (n + 1)
          ({ pattern := r.pattern, style_file := r.style_file } :: acc)
      else .error (.regexSyntaxError n (env.compileErr r.pattern))) = _
    rw [if_pos hg.2.2.2.2]
    have hr : ({ pattern := r.pattern, style_file := r.style_file } : Rule) = r := rfl
    rw [hr, ih (fun x hx => hgood x (List.mem_cons_of_mem r hx)) (n + 1) (r :: acc)]
    simp

theorem parse_content_joinNl (env : Env) (rules : List Rule)
    (hgood : ∀ r ∈ rules, GoodRule env r) :
    parse_content env (joinNl (List.map ruleLine rules)) = .ok rules := by
  rcases rules with _ | ⟨r0, rest⟩
  · rfl
  · obtain ⟨mid, hmid⟩ := joinNl_form rest r0
    have hstrip : pyStrip (joinNl (List.map ruleLine (r0 :: rest))) =
        joinNl (List.map ruleLine (r0 :: rest)) := by
      show (⟨pyStripList (joinNl (List.map ruleLine (r0 :: rest))).data⟩ : String) = _
      rw [hmid, pyStripList_quoted]
      rw [← hmid]
    have hne : ¬ pyStrip (joinNl (List.map ruleLine (r0 :: rest))) = "" := by
      rw [hstrip]
      intro hcon
      have := congrArg String.data hcon
      rw [hmid] at this
      simp at this
    unfold parse_content
    rw [if_neg hne, hstrip]
    have hlines : splitOnNl (joinNl (List.map ruleLine (r0 :: rest))).data =
        List.map String.data (List.map ruleLine (r0 :: rest)) :=
      splitOnNl_joinNl _
        (by
          intro l hl
          obtain ⟨r, hr, hrl⟩ := List.mem_map.mp hl
          rw [← hrl]
          exact line_no_nl env r (hgood r hr))
        (by simp)
    rw [hlines, List.map_map]
    have := parseAux_lines env (r0 :: rest) hgood 1 []
    rw [show (List.map (String.data ∘ ruleLine) (r0 :: rest)) =
      (List.map (fun r => (ruleLine r).data) (r0 :: rest)) from rfl]
    rw [this]
    rfl

theorem ruleLineText_ruleToJson (r : Rule) :
    ruleLineText (ruleToJson r) = some (ruleLine r) := rfl

theorem mapM_ruleLineText (rules : List Rule) :
    List.mapM ruleLineText (List.map ruleToJson rules) =
      some (List.map ruleLine rules) := by
  induction rules with
  | nil => rfl
  | cons r rest ih =>
    rw [List.map_cons, List.mapM_cons, ruleLineText_ruleToJson, ih]
    rfl

theorem get_content_text_rules (rules : List Rule) (name : String) :
    get_content_text (.jobj [("rules", .jarr (List.map ruleToJson rules)),
        ("name", .jstr name)]) = some (joinNl (List.map ruleLine rules)) := by
  show (List.mapM ruleLineText (List.map ruleToJson rules)).map joinNl = _
  rw [mapM_ruleLineText]
  rfl

/-- C7 as amended: the pipeline load → `get_content_text` → `save_config`
under the same name → reload returns the same rule sequence, provided the
stored rules survive the textual grammar: pattern and path non-empty and
newline-free, the path free of double quotes, and the pattern compiling.
(The counterexample `c7_counterexample` shows the unrestricted claim
fails when the path contains a quote.) -/
theorem c7_idempotent_amended (env : Env) (dir : String) (fs : FS) (name : String)
    (rules : List Rule)
    (hname : pyStrip name = name) (hname2 : ¬ name = "")
    (hstored : fsRead fs (get_config_path dir name) = some (rulesJson rules))
    (hgood : ∀ r ∈ rules, GoodRule env r) :
    load_config dir fs name =
      .ok (some (.jobj [("rules", .jarr (List.map ruleToJson rules)),
        ("name", .jstr name)])) ∧
    get_content_text (.jobj [("rules", .jarr (List.map ruleToJson rules)),
        ("name", .jstr name)]) = some (joinNl (List.map ruleLine rules)) ∧
    save_config env dir fs name (joinNl (List.map ruleLine rules)) none =
      ((true, none), fsWrite fs (get_config_path dir name) (rulesJson rules)) ∧
    load_config dir (fsWrite fs (get_config_path dir name) (rulesJson rules)) name =
      .ok (some (.jobj [("rules", .jarr (List.map ruleToJson rules)),
        ("name", .jstr name)])) := by
  refine ⟨load_config_stored dir name fs rules hstored,
    get_content_text_rules rules name, ?_,
    load_config_stored dir name _ rules (fsRead_fsWrite_self _ _ _)⟩
  unfold save_config
  rw [hname, if_neg hname2, parse_content_joinNl env rules hgood]

/-- Witness for C7 (amended): a concrete well-behaved one-rule config
round-trips through load, render, save, and reload unchanged. -/
theorem c7_witness :
    load_config "d" [("d/c.json", rulesJson [⟨"p", "f"⟩])] "c" =
      .ok (some (.jobj [("rules", .jarr (List.map ruleToJson [⟨"p", "f"⟩])),
        ("name", .jstr "c")])) ∧
    get_content_text (.jobj [("rules", .jarr (List.map ruleToJson [⟨"p", "f"⟩])),
        ("name", .jstr "c")]) = some (joinNl (List.map ruleLine [⟨"p", "f"⟩])) ∧
    save_config envAllOk "d" [("d/c.json", rulesJson [⟨"p", "f"⟩])] "c"
        (joinNl (List.map ruleLine [⟨"p", "f"⟩])) none =
      ((true, none), fsWrite [("d/c.json", rulesJson [⟨"p", "f"⟩])]
        (get_config_path "d" "c") (rulesJson [⟨"p", "f"⟩])) ∧
    load_config "d" (fsWrite [("d/c.json", rulesJson [⟨"p", "f"⟩])]
        (get_config_path "d" "c") (rulesJson [⟨"p", "f"⟩])) "c" =
      .ok (some (.jobj [("rules", .jarr (List.map ruleToJson [⟨"p", "f"⟩])),
        ("name", .jstr "c")])) := by
  exact c7_idempotent_amended envAllOk "d" [("d/c.json", rulesJson [⟨"p", "f"⟩])] "c"
    [⟨"p", "f"⟩] rfl (by decide) rfl
    (by
      intro r hr
      rcases List.mem_singleton.mp hr with rfl
      exact ⟨by decide, by decide, by decide, by decide, rfl⟩)

end AutoStyle
